import Mathlib

/-! # convert-existing-batch.js: a verification development

A shallow embedding of `src/convert-existing-batch.js`, the batch job that
converts the objects of an S3 bucket to WebP.

Conventions of the embedding.

* A JavaScript string is a `List Char` (`Str`).  Object keys and command-line
  prefixes are well-formed Unicode, and every comparison the script makes
  (`startsWith`, `endsWith`, the two regular expressions) only looks for the
  ASCII characters `.`, `/`, `,` or compares whole code points.
* `String.prototype.toLowerCase` is a function of the JavaScript runtime and
  is a parameter of `shouldProcess`.
* The two regular expressions of the script are written in a small regular
  expression language (`Piece`, `Regex`) with the usual greedy backtracking
  semantics, and `String.prototype.replace` replaces the leftmost match.
* An asynchronous function is a computation in `Async`: it reads and writes
  the global variables of the script (`State`) and may throw a `JSError`.
  The S3 requests issued are recorded, oldest first, in `State.calls`.
* The S3 service and `sharp` are described by their replies (`Env`): a reply
  to a request is a function of the request, and a promise settles after some
  latency or stays pending for ever.  The replies to the successive
  `listObjectsV2` requests are given as a list; a request beyond that list
  stays pending.
* The package `p-limit` is not part of the script.  `pLimit` is its check of
  the concurrency, and `Limiter` holds the tasks that wait and the tasks in
  flight.  A task is a sequence of resumptions (`startTask`, `resume`), one
  for each `await` of `convertImage`; `finishFrom_eq_task` shows that a task
  resumed on its own until it ends is the function `task` of the script.
* The event loop is the function `Env.schedule`: it chooses, from the limiter
  and the state, which promise settles next or that a waiting task starts.
  The theorems on `processAllObjects` hold for every schedule.
* Console output is not part of the model.
-/

namespace ConvertExistingBatch

/-- A JavaScript string. -/
abbrev Str := List Char

/-! ## Strings -/

/-- The method `String.prototype.startsWith`. -/
def startsWith (s pre : Str) : Bool := pre.isPrefixOf s

/-- The method `String.prototype.endsWith`. -/
def endsWith (s suf : Str) : Bool := suf.isSuffixOf s

/-- White space and line terminators of ECMAScript, the characters removed by
`String.prototype.trim`. -/
def isWhiteSpace (c : Char) : Bool :=
  let n := c.toNat
  n = 0x09 || n = 0x0A || n = 0x0B || n = 0x0C || n = 0x0D || n = 0x20 ||
  n = 0xA0 || n = 0x1680 || (0x2000 ≤ n && n ≤ 0x200A) ||
  n = 0x2028 || n = 0x2029 || n = 0x202F || n = 0x205F || n = 0x3000 || n = 0xFEFF

/-- The method `String.prototype.trim`. -/
def trim (s : Str) : Str :=
  ((s.dropWhile isWhiteSpace).reverse.dropWhile isWhiteSpace).reverse

/-- The method `String.prototype.split` with a one-character separator. -/
def split (sep : Char) : Str → List Str
  | [] => [[]]
  | c :: t =>
    if c = sep then [] :: split sep t
    else
      match split sep t with
      | h :: r => (c :: h) :: r
      | [] => [[c]]

/-! ## Regular expressions -/

/-- One-character matchers: a literal character (`\.`, `\/`) and a negated
one-character class (`[^.]`). -/
inductive Atom where
  | lit (c : Char)
  | notLit (c : Char)
  deriving DecidableEq, Repr

/-- Quantifiers: none, `?` and `+` (both greedy). -/
inductive Quant where
  | one
  | opt
  | plus
  deriving DecidableEq, Repr

/-- A quantified atom. -/
structure Piece where
  atom : Atom
  quant : Quant
  deriving DecidableEq, Repr

/-- A regular expression: a sequence of pieces, followed by `$` or not. -/
structure Regex where
  pieces : List Piece
  anchoredEnd : Bool
  deriving DecidableEq, Repr

/-- Whether an atom accepts a character. -/
def Atom.accepts : Atom → Char → Bool
  | .lit c, d => d = c
  | .notLit c, d => d ≠ c

/-- Greedy iteration for `a+` followed by the continuation `k`: consume one
accepted character, then first try to consume more, then try `k`. -/
def plusLoop (k : Str → Option Str) (a : Atom) : Str → Option Str
  | [] => none
  | c :: t =>
    if a.accepts c then
      match plusLoop k a t with
      | some r => some r
      | none => k t
    else none

/-- Backtracking match of a sequence of pieces at the start of the input.
The result is the input left after the match.  Without the `m` flag, `$`
matches at the end of the input only. -/
def matchPieces (anchoredEnd : Bool) : List Piece → Str → Option Str
  | [], s => if anchoredEnd then (if s = [] then some [] else none) else some s
  | ⟨a, .one⟩ :: ps, s =>
    match s with
    | [] => none
    | c :: t => if a.accepts c then matchPieces anchoredEnd ps t else none
  | ⟨a, .opt⟩ :: ps, s =>
    match s with
    | [] => matchPieces anchoredEnd ps []
    | c :: t =>
      if a.accepts c then
        match matchPieces anchoredEnd ps t with
        | some r => some r
        | none => matchPieces anchoredEnd ps (c :: t)
      else matchPieces anchoredEnd ps (c :: t)
  | ⟨a, .plus⟩ :: ps, s => plusLoop (matchPieces anchoredEnd ps) a s

/-- Match of a regular expression at the start of the input. -/
def Regex.matchAt (re : Regex) (s : Str) : Option Str :=
  matchPieces re.anchoredEnd re.pieces s

/-- The method `String.prototype.replace` with a regular expression without the
`g` flag and a replacement string without `$` patterns: the leftmost match is
replaced, and a string without a match is returned unchanged. -/
def replace (re : Regex) (repl : Str) : Str → Str
  | [] =>
    match re.matchAt [] with
    | some rest => repl ++ rest
    | none => []
  | c :: t =>
    match re.matchAt (c :: t) with
    | some rest => repl ++ rest
    | none => c :: replace re repl t

/-- The regular expression `/\.[^.]+$/`. -/
def extensionRegex : Regex :=
  ⟨[⟨.lit '.', .one⟩, ⟨.notLit '.', .plus⟩], true⟩

/-- The regular expression `/\/?$/`. -/
def trailingSlashRegex : Regex :=
  ⟨[⟨.lit '/', .opt⟩], true⟩

/-- The target key of `convertImage`: `key.replace(/\.[^.]+$/, '') + '.webp'`. -/
def webpKey (key : Str) : Str :=
  replace extensionRegex [] key ++ ".webp".toList

/-! ## Command line and global variables -/

/-- Truthiness of a JavaScript value that is a string, `null` or `undefined`. -/
def truthy : Option Str → Bool
  | some (_ :: _) => true
  | _ => false

/-- The options of the command line as `minimist` returns them;
`concurrency` is the result of `parseInt(args.concurrency, 10)`, with `none`
for `NaN`. -/
structure Args where
  exclude : Option Str
  incl : Option Str
  concurrency : Option Int
  dryRun : Bool

/-- Normalisation of a prefix: `p.trim().replace(/\/?$/, '/')`. -/
def normalizePrefix (p : Str) : Str :=
  replace trailingSlashRegex "/".toList (trim p)

/-- The constants computed from the command line (source lines 25 to 28). -/
structure Config where
  EXCLUDE_PREFIXES : List Str
  INCLUDE_PREFIX : Option Str
  CONCURRENCY : Int
  DRY_RUN : Bool

/-- The constant `EXCLUDE_PREFIXES`. -/
def excludePrefixes (args : Args) : List Str :=
  if truthy args.exclude then
    match args.exclude with
    | some s => (split ',' s).map normalizePrefix
    | none => []
  else []

/-- The constant `INCLUDE_PREFIX`. -/
def includePrefix (args : Args) : Option Str :=
  if truthy args.incl then args.incl.map normalizePrefix else none

/-- The constant `CONCURRENCY`: `parseInt(args.concurrency, 10) || 5`. -/
def concurrency (args : Args) : Int :=
  match args.concurrency with
  | some n => if n = 0 then 5 else n
  | none => 5

/-- The configuration of a run. -/
def Config.ofArgs (args : Args) : Config :=
  ⟨excludePrefixes args, includePrefix args, concurrency args, args.dryRun⟩

/-- The function `shouldProcess` (source lines 49 to 54). -/
def shouldProcess (toLowerCase : Str → Str) (cfg : Config) (key : Str) : Bool :=
  if endsWith (toLowerCase key) ".webp".toList then false
  else if (match cfg.INCLUDE_PREFIX with
      | some p => truthy (some p) && !startsWith key p
      | none => false) then false
  else if cfg.EXCLUDE_PREFIXES.any (fun pre => startsWith key pre) then false
  else true

/-- Lower-casing of the letters `A` to `Z`, every other character unchanged:
what `toLowerCase` does on ASCII strings. -/
def asciiLowerCase (s : Str) : Str := s.map Char.toLower

/-- The directory part of a key: everything up to and including its last `/`,
empty if the key has none. -/
def dirPart : Str → Str
  | [] => []
  | c :: t =>
    if '/' ∈ t then c :: dirPart t
    else if c = '/' then [c] else []

/-! ## Asynchronous computations -/

/-- The contents of a `Buffer`. -/
abbrev Buffer := List Nat

/-- An error object: its `code` property, if it has one, and its message. -/
structure JSError where
  code : Option Str
  message : Str
  deriving DecidableEq, Repr

/-- A promise, by the way it settles. -/
inductive Reply (α : Type) where
  | settles (latency : Nat) (result : Except JSError α)
  | pending

/-- A request sent to S3. -/
inductive Call where
  | listObjectsV2 (ContinuationToken : Option Str)
  | headObject (Key : Str)
  | getObject (Key : Str)
  | putObject (Key : Str) (Body : Buffer)
  deriving DecidableEq, Repr

/-- The global variables of the script, the requests sent so far and the
contents of the file `failed-keys.txt` once it is written. -/
structure State where
  totalProcessed : Nat
  totalCount : Nat
  failedKeys : List Str
  calls : List Call
  failedKeysFile : Option Str
  deriving DecidableEq, Repr

/-- The state when the script starts (source lines 31 to 33). -/
def State.initial : State := ⟨0, 0, [], [], none⟩

/-- Asynchronous computations over the global variables. -/
abbrev Async := ExceptT JSError (StateM State)

/-- The error of an expired timer,
`new Error("Timeout after " + ms + "ms for " + key)`: it has no `code`. -/
def timeoutError (ms : Nat) (key : Str) : JSError :=
  ⟨none, "Timeout after ".toList ++ (toString ms).toList ++ "ms for ".toList ++ key⟩

/-- The function `withTimeout` (source lines 36 to 46): the promise races a
timer of `ms` milliseconds.  The promise exists before the timer is armed and
comes first in `Promise.race`, so a promise that settles within `ms`
milliseconds wins, and its result is returned or thrown; a promise that takes
longer, or never settles, loses to the timer, and an error without `code` is
thrown. -/
def withTimeout {α : Type} (promise : Reply α) (ms : Nat) (key : Str) : Except JSError α :=
  match promise with
  | .settles latency result => if latency ≤ ms then result else .error (timeoutError ms key)
  | .pending => .error (timeoutError ms key)

/-- The operator `await` on a settled promise. -/
def await {α : Type} (r : Except JSError α) : Async α := liftExcept r

/-- Sending a request. -/
def request (c : Call) : Async Unit :=
  modify (fun st => { st with calls := st.calls ++ [c] })

/-- The statement `failedKeys.push(key)`. -/
def pushFailed (key : Str) : Async Unit :=
  modify (fun st => { st with failedKeys := st.failedKeys ++ [key] })

/-- The page returned by `listObjectsV2`: the keys of `Contents` and the
truncation fields. -/
structure ListObjectsV2Output where
  Contents : List Str
  IsTruncated : Bool
  NextContinuationToken : Option Str
  deriving DecidableEq, Repr

/-- The `await` at which a task in flight is suspended: on the `headObject`
of line 61, the `getObject` of line 78, the `toBuffer` of `sharp` of line 81
or the `putObject` of line 85. -/
inductive Phase where
  | head
  | get
  | sharp (obj : Buffer)
  | put (webpBuffer : Buffer)
  deriving DecidableEq, Repr

/-- The limiter returned by `pLimit`: the keys of the tasks that wait, in the
order in which they were given to it, and the tasks in flight. -/
structure Limiter where
  queue : List Str
  active : List (Str × Phase)
  deriving DecidableEq, Repr

/-- The environment of a run: the runtime, the configuration, the replies
of S3 and of `sharp`, and the event loop: `schedule` chooses, from the limiter
and the state, the event that comes next. -/
structure Env where
  toLowerCase : Str → Str
  cfg : Config
  headObject : Str → Reply Unit
  getObject : Str → Reply Buffer
  putObject : Str → Buffer → Reply Unit
  sharp : Buffer → Except JSError Buffer
  schedule : Limiter → State → Nat

/-! ## The conversion of one object -/

/-- The function `convertImage` (source lines 56 to 100). -/
def convertImage (env : Env) (key : Str) : Async Unit := do
  let webpKey := webpKey key
  try
    request (.headObject webpKey)
    await (withTimeout (env.headObject webpKey) 8000 webpKey)
    return
  catch err =>
    if err.code ≠ some "NotFound".toList then
      pushFailed key
      return
  if env.cfg.DRY_RUN then
    return
  try
    request (.getObject key)
    let obj ← await (withTimeout (env.getObject key) 15000 key)
    let webpBuffer ← await (env.sharp obj)
    request (.putObject webpKey webpBuffer)
    await (withTimeout (env.putObject webpKey webpBuffer) 15000 webpKey)
  catch _ =>
    pushFailed key

/-! ## The batch -/

/-- The task given to the limiter for one key (source lines 120 to 126). -/
def task (env : Env) (key : Str) : Async Unit := do
  convertImage env key
  modify (fun st => { st with totalProcessed := st.totalProcessed + 1 })

/-- The call `pLimit(concurrency)` of the package `p-limit`, which is not part
of the script: it throws a `TypeError` unless `concurrency` is a number from 1
up. -/
def pLimit (concurrency : Int) : Except JSError Unit :=
  if 1 ≤ concurrency then .ok ()
  else .error ⟨none, "Expected concurrency to be a number from 1 and up".toList⟩

/-- The statement `totalProcessed++` (source line 122), the end of a task. -/
def State.finish (st : State) : State :=
  { st with totalProcessed := st.totalProcessed + 1 }

/-- The state once a request is sent. -/
def State.send (st : State) (c : Call) : State :=
  { st with calls := st.calls ++ [c] }

/-- The state after `failedKeys.push(key)`. -/
def State.push (st : State) (key : Str) : State :=
  { st with failedKeys := st.failedKeys ++ [key] }

/-- The start of a task: it runs to its first `await`, where `convertImage`
has sent the `headObject` request for the target key. -/
def startTask (key : Str) (st : State) : State × Phase :=
  (st.send (.headObject (webpKey key)), .head)

/-- A task in flight resumes when the promise it awaits settles, and runs to
its next `await` (the result is the new phase) or to its end (no phase).  The
four cases are the pieces of `convertImage` and of the task between two
`await`s. -/
def resume (env : Env) (key : Str) : Phase → State → State × Option Phase
  | .head, st =>
    match withTimeout (env.headObject (webpKey key)) 8000 (webpKey key) with
    | .ok _ => (st.finish, none)
    | .error err =>
      if err.code ≠ some "NotFound".toList then ((st.push key).finish, none)
      else if env.cfg.DRY_RUN then (st.finish, none)
      else (st.send (.getObject key), some .get)
  | .get, st =>
    match withTimeout (env.getObject key) 15000 key with
    | .ok obj => (st, some (.sharp obj))
    | .error _ => ((st.push key).finish, none)
  | .sharp obj, st =>
    match env.sharp obj with
    | .ok webpBuffer =>
      (st.send (.putObject (webpKey key) webpBuffer), some (.put webpBuffer))
    | .error _ => ((st.push key).finish, none)
  | .put webpBuffer, st =>
    match withTimeout (env.putObject (webpKey key) webpBuffer) 15000 (webpKey key) with
    | .ok _ => (st.finish, none)
    | .error _ => ((st.push key).finish, none)

/-- A task that runs on its own from a phase to its end, in at most `fuel`
resumptions. -/
def finishFrom (env : Env) (key : Str) : Nat → Phase → State → State
  | 0, _, st => st
  | fuel + 1, phase, st =>
    match resume env key phase st with
    | (st1, none) => st1
    | (st1, some next) => finishFrom env key fuel next st1

/-- The element of a list at a position, and the other elements. -/
def pick {α : Type} : Nat → List α → Option (α × List α)
  | _, [] => none
  | 0, a :: l => some (a, l)
  | i + 1, a :: l =>
    match pick i l with
    | some (b, others) => some (b, a :: others)
    | none => none

/-- One event of the event loop while the tasks of a page are with the
limiter.  The events that can happen are the settlement of the promise awaited
by one of the tasks in flight and, when fewer than `CONCURRENCY` tasks are in
flight and a task waits, the start of the first task that waits; the schedule
chooses among them.  `p-limit` starts a waiting task as soon as a place is free;
here the start may also come after further settlements, which leaves out no
order of events. -/
def Limiter.step (env : Env) (lim : Limiter) (st : State) : Limiter × State :=
  let events := lim.active.length +
    (if (lim.active.length : Int) < env.cfg.CONCURRENCY ∧ lim.queue ≠ [] then 1 else 0)
  match pick (env.schedule lim st % events) lim.active with
  | some ((key, phase), others) =>
    match resume env key phase st with
    | (st1, some next) => (⟨lim.queue, others ++ [(key, next)]⟩, st1)
    | (st1, none) => (⟨lim.queue, others⟩, st1)
  | none =>
    match lim.queue with
    | key :: rest =>
      if (lim.active.length : Int) < env.cfg.CONCURRENCY then
        (⟨rest, lim.active ++ [(key, (startTask key st).2)]⟩, (startTask key st).1)
      else (lim, st)
    | [] => (lim, st)

/-- Some events of the event loop, one after the other. -/
def Limiter.run (env : Env) : Nat → Limiter → State → Limiter × State
  | 0, lim, st => (lim, st)
  | fuel + 1, lim, st => Limiter.run env fuel (lim.step env st).1 (lim.step env st).2

/-- The expression `Promise.all(batchKeys.map(item => limit(...)))`: the tasks
are given to the limiter in the order of `batchKeys`, and the promise is
awaited until every task has finished.  A task takes part in at most five
events, its start and four settlements. -/
def promiseAll (env : Env) (batchKeys : List Str) : Async Unit :=
  modify (fun st => (Limiter.run env (5 * batchKeys.length) ⟨batchKeys, []⟩ st).2)

/-- One iteration of the `do ... while` loop (source lines 113 to 129); the
result is the new value of `continuationToken`. -/
def iteration (env : Env) (continuationToken : Option Str)
    (reply : Reply ListObjectsV2Output) : Async (Option Str) := do
  request (.listObjectsV2 continuationToken)
  let data ← await (withTimeout reply 10000 "listObjectsV2".toList)
  let batchKeys := data.Contents.filter (shouldProcess env.toLowerCase env.cfg)
  modify (fun st => { st with totalCount := st.totalCount + batchKeys.length })
  promiseAll env batchKeys
  return (if data.IsTruncated then data.NextContinuationToken else none)

/-- The `do ... while (continuationToken)` loop (source lines 112 to 130).
The first argument holds the replies to the successive `listObjectsV2`
requests; once it is used up a request stays pending, so that its
`withTimeout` throws. -/
def doWhile (env : Env) : List (Reply ListObjectsV2Output) → Option Str → Async Unit
  | [], continuationToken => do
    let _ ← iteration env continuationToken .pending
  | reply :: rest, continuationToken => do
    let next ← iteration env continuationToken reply
    if truthy next then doWhile env rest next

/-- The method `Array.prototype.join`. -/
def join (sep : Str) : List Str → Str
  | [] => []
  | [s] => s
  | s :: t => s ++ sep ++ join sep t

/-- The function `processAllObjects` (source lines 102 to 136). -/
def processAllObjects (env : Env) (listing : List (Reply ListObjectsV2Output)) : Async Unit := do
  liftExcept (pLimit env.cfg.CONCURRENCY)
  doWhile env listing none
  let st ← get
  if st.failedKeys.length > 0 then
    set { st with failedKeysFile := some (join "\n".toList st.failedKeys) }

/-- The state of a run of the loop at the end of its `i`-th iteration, if the
loop gets that far. -/
def afterIterations (env : Env) :
    Nat → List (Reply ListObjectsV2Output) → Option Str → State → Option State
  | 0, _, _, st => some st
  | _ + 1, [], _, _ => none
  | i + 1, reply :: rest, continuationToken, st =>
    match (iteration env continuationToken reply).run st with
    | (.ok next, st1) =>
      if i = 0 then some st1
      else if truthy next then afterIterations env i rest next st1
      else none
    | (.error _, _) => none

/-! ## Summaries used in the statements -/

/-- The state once some requests have been sent and some keys pushed on
`failedKeys`. -/
def State.record (st : State) (cs : List Call) (failed : List Str) : State :=
  { st with calls := st.calls ++ cs, failedKeys := st.failedKeys ++ failed }

/-- The requests that `convertImage` sends for a key, and whether it pushes the
key on `failedKeys`, read off the replies. -/
def conversion (env : Env) (key : Str) : List Call × Bool :=
  match withTimeout (env.headObject (webpKey key)) 8000 (webpKey key) with
  | .ok _ => ([.headObject (webpKey key)], false)
  | .error err =>
    if err.code ≠ some "NotFound".toList then ([.headObject (webpKey key)], true)
    else if env.cfg.DRY_RUN then ([.headObject (webpKey key)], false)
    else
      match withTimeout (env.getObject key) 15000 key with
      | .error _ => ([.headObject (webpKey key), .getObject key], true)
      | .ok obj =>
        match env.sharp obj with
        | .error _ => ([.headObject (webpKey key), .getObject key], true)
        | .ok webpBuffer =>
          match withTimeout (env.putObject (webpKey key) webpBuffer) 15000 (webpKey key) with
          | .error _ =>
            ([.headObject (webpKey key), .getObject key, .putObject (webpKey key) webpBuffer], true)
          | .ok _ =>
            ([.headObject (webpKey key), .getObject key, .putObject (webpKey key) webpBuffer], false)

/-- Whether `convertImage`, run on its own from the initial state, ends with
the key on `failedKeys`. -/
def endsInFailure (env : Env) (key : Str) : Bool :=
  ((convertImage env key).run State.initial).2.failedKeys.contains key

/-- The keys of a page that `shouldProcess` accepts (source line 116). -/
def batchKeys (env : Env) (page : ListObjectsV2Output) : List Str :=
  page.Contents.filter (shouldProcess env.toLowerCase env.cfg)

/-- The requests that `convertImage` sends for a key, in the order in which
it sends them. -/
def requestsOf (env : Env) (key : Str) : List Call :=
  ((convertImage env key).run State.initial).2.calls

/-- The keys of a listing. -/
def listedKeys (pages : List ListObjectsV2Output) : List Str :=
  pages.flatMap (fun page => page.Contents)

/-- A listing of `n >= 1` pages: every page but the last reports `IsTruncated`
with a next continuation token, and the last page reports no truncation. -/
def paginated : List ListObjectsV2Output → Bool
  | [] => false
  | [page] => !page.IsTruncated
  | page :: next :: rest =>
    page.IsTruncated && truthy page.NextContinuationToken && paginated (next :: rest)

/-- The page fetches all succeed: the `i`-th `listObjectsV2` request is
answered, within its timeout, by the `i`-th page. -/
def Delivers (replies : List (Reply ListObjectsV2Output))
    (pages : List ListObjectsV2Output) : Prop :=
  replies.map (fun reply => withTimeout reply 10000 "listObjectsV2".toList)
    = pages.map Except.ok

/-- The continuation tokens of the `listObjectsV2` requests among some
requests, in the order of the requests. -/
def listTokens : List Call → List (Option Str)
  | [] => []
  | .listObjectsV2 token :: cs => token :: listTokens cs
  | _ :: cs => listTokens cs

/-- Requests that go page by page: the `listObjectsV2` request of the first
page, then the requests of the tasks of that page in some order, then in the
same way the requests of the next pages. -/
def PageByPage (env : Env) : Option Str → List ListObjectsV2Output → List Call → Prop
  | _, [], cs => cs = []
  | token, page :: rest, cs =>
    ∃ segment later, cs = .listObjectsV2 token :: segment ++ later ∧
      segment.Perm ((batchKeys env page).flatMap (requestsOf env)) ∧
      PageByPage env page.NextContinuationToken rest later

/-- What the loop has done once it has gone through some pages, from the state
`st` to the state `st1`: both counters have grown by the number of accepted
keys, the accepted keys whose conversion fails have been pushed on `failedKeys`
in some order, and the requests have been sent page by page. -/
structure Progress (env : Env) (token : Option Str) (pages : List ListObjectsV2Output)
    (st st1 : State) : Prop where
  totalCount : st1.totalCount = st.totalCount
    + ((listedKeys pages).filter (shouldProcess env.toLowerCase env.cfg)).length
  totalProcessed : st1.totalProcessed = st.totalProcessed
    + ((listedKeys pages).filter (shouldProcess env.toLowerCase env.cfg)).length
  failedKeys : ∃ failed, st1.failedKeys = st.failedKeys ++ failed ∧
    failed.Perm (((listedKeys pages).filter
      (shouldProcess env.toLowerCase env.cfg)).filter (endsInFailure env))
  calls : ∃ cs, st1.calls = st.calls ++ cs ∧ PageByPage env token pages cs
  failedKeysFile : st1.failedKeysFile = st.failedKeysFile

/-- The requests that a task in flight still sends, and whether it still
pushes its key on `failedKeys`, read off the replies. -/
def remaining (env : Env) (key : Str) : Phase → List Call × Bool
  | .put webpBuffer =>
    match withTimeout (env.putObject (webpKey key) webpBuffer) 15000 (webpKey key) with
    | .error _ => ([], true)
    | .ok _ => ([], false)
  | .sharp obj =>
    match env.sharp obj with
    | .error _ => ([], true)
    | .ok webpBuffer =>
      match withTimeout (env.putObject (webpKey key) webpBuffer) 15000 (webpKey key) with
      | .error _ => ([.putObject (webpKey key) webpBuffer], true)
      | .ok _ => ([.putObject (webpKey key) webpBuffer], false)
  | .get =>
    match withTimeout (env.getObject key) 15000 key with
    | .error _ => ([], true)
    | .ok obj =>
      match env.sharp obj with
      | .error _ => ([], true)
      | .ok webpBuffer =>
        match withTimeout (env.putObject (webpKey key) webpBuffer) 15000 (webpKey key) with
        | .error _ => ([.putObject (webpKey key) webpBuffer], true)
        | .ok _ => ([.putObject (webpKey key) webpBuffer], false)
  | .head => ((conversion env key).1.tail, (conversion env key).2)

/-- The requests sent so far together with those that the tasks in flight and
the waiting tasks still send. -/
def Limiter.allCalls (env : Env) (lim : Limiter) (st : State) : Multiset Call :=
  (st.calls : Multiset Call)
    + ((lim.active.flatMap (fun a => (remaining env a.1 a.2).1) : List Call) : Multiset Call)
    + ((lim.queue.flatMap (fun key => (conversion env key).1) : List Call) : Multiset Call)

/-- The keys pushed on `failedKeys` so far together with those that the tasks
in flight and the waiting tasks still push. -/
def Limiter.allFailed (env : Env) (lim : Limiter) (st : State) : Multiset Str :=
  (st.failedKeys : Multiset Str)
    + ((lim.active.flatMap
        (fun a => if (remaining env a.1 a.2).2 then [a.1] else []) : List Str) : Multiset Str)
    + ((lim.queue.flatMap
        (fun key => if (conversion env key).2 then [key] else []) : List Str) : Multiset Str)

/-- The number of events that a phase still takes. -/
def Phase.rank : Phase → Nat
  | .head => 4
  | .get => 3
  | .sharp _ => 2
  | .put _ => 1

/-- A bound on the number of events until every task has finished. -/
def Limiter.measure (lim : Limiter) : Nat :=
  (lim.active.map (fun a => a.2.rank)).sum + 5 * lim.queue.length

/-- What the events of the event loop keep unchanged, from a limiter and a
state to a later limiter and state. -/
structure Conserves (env : Env) (lim : Limiter) (st : State) (lim1 : Limiter) (st1 : State) :
    Prop where
  allCalls : lim1.allCalls env st1 = lim.allCalls env st
  allFailed : lim1.allFailed env st1 = lim.allFailed env st
  tasks : st1.totalProcessed + lim1.active.length + lim1.queue.length
    = st.totalProcessed + lim.active.length + lim.queue.length
  totalCount : st1.totalCount = st.totalCount
  failedKeysFile : st1.failedKeysFile = st.failedKeysFile
  calls : ∃ cs, st1.calls = st.calls ++ cs
  failedKeys : ∃ failed, st1.failedKeys = st.failedKeys ++ failed

/-- The end of `processAllObjects` (source lines 132 to 135). -/
def State.writeFailedKeys (st : State) : State :=
  if st.failedKeys.length > 0 then
    { st with failedKeysFile := some (join "\n".toList st.failedKeys) }
  else st

/-- The requests and the failure that a task still has before it after a
resumption: those of its next phase, and none if it has ended. -/
def remainingNext (env : Env) (key : Str) : Option Phase → List Call × Bool
  | some next => remaining env key next
  | none => ([], false)

/-! ## A bucket for the examples -/

/-- The reply of `headObject` for an object that does not exist. -/
def replyNotFound : Reply Unit :=
  .settles 40 (.error ⟨some "NotFound".toList, "Not Found".toList⟩)

/-- An environment for the examples: include-prefix `img/`, no
exclude-prefix, concurrency 2, no target object exists, `sharp` and
`putObject` succeed, and `getObject` is given. -/
def exampleEnv (dryRun : Bool) (head : Str → Reply Unit) (get : Str → Reply Buffer)
    (schedule : Limiter → State → Nat) : Env where
  toLowerCase := asciiLowerCase
  cfg := ⟨[], some "img/".toList, 2, dryRun⟩
  headObject := head
  getObject := get
  putObject := fun _ _ => .settles 60 (.ok ())
  sharp := fun body => .ok (0x52 :: body)
  schedule := schedule

/-- The schedule that always chooses the first event that can happen. -/
def firstEvent : Limiter → State → Nat := fun _ _ => 0

/-- The schedule that always chooses the last event that can happen. -/
def lastEvent : Limiter → State → Nat := fun lim _ => lim.active.length

/-- A `getObject` that succeeds on every key. -/
def getAll : Str → Reply Buffer := fun _ => .settles 50 (.ok [0x89, 0x50])

/-- A `getObject` that fails on the key `img/a.png` and succeeds elsewhere. -/
def getAllButA : Str → Reply Buffer := fun key =>
  if key = "img/a.png".toList then
    .settles 50 (.error ⟨some "InternalError".toList, "We encountered an internal error".toList⟩)
  else .settles 50 (.ok [0x89, 0x50])

/-- The reply of `headObject` when access is denied. -/
def replyForbidden : Reply Unit :=
  .settles 40 (.error ⟨some "Forbidden".toList, "Forbidden".toList⟩)

/-- The environment of the examples with a `sharp` that rejects its input. -/
def exampleEnvBadImage : Env :=
  { exampleEnv false (fun _ => replyNotFound) getAll firstEvent with
    sharp := fun _ =>
      .error ⟨none, "Input buffer contains unsupported image format".toList⟩ }

/-- The environment of the examples with a `putObject` that takes 20 seconds. -/
def exampleEnvSlowPut : Env :=
  { exampleEnv false (fun _ => replyNotFound) getAll firstEvent with
    putObject := fun _ _ => .settles 20000 (.ok ()) }

/-- The page of the end-to-end scenario. -/
def examplePage : ListObjectsV2Output :=
  ⟨["img/a.png".toList, "img/b.webp".toList, "img/c.jpg".toList], false, none⟩

/-- The listing of the end-to-end scenario: one page, delivered in 120 ms. -/
def exampleListing : List (Reply ListObjectsV2Output) :=
  [.settles 120 (.ok examplePage)]

/-- The key `img/<n>.png`. -/
def numberedKey (n : Nat) : Str :=
  "img/".toList ++ (toString n).toList ++ ".png".toList

/-- A page of 50 keys, numbered from `first`. -/
def pageOfFifty (first : Nat) (truncated : Bool) (next : Option Str) : ListObjectsV2Output :=
  ⟨(List.range 50).map (fun k => numberedKey (first + k)), truncated, next⟩

/-- Three pages of 50 keys: truncation is set on the first two pages and
cleared on the third. -/
def threePages : List ListObjectsV2Output :=
  [pageOfFifty 0 true (some "token-1".toList), pageOfFifty 50 true (some "token-2".toList),
   pageOfFifty 100 false none]

/-- Two pages: the key of the second page already is a WebP image. -/
def twoPages : List ListObjectsV2Output :=
  [⟨["img/a.png".toList], true, some "token-1".toList⟩, ⟨["img/b.webp".toList], false, none⟩]

/-- The replies that deliver some pages, each in 120 ms. -/
def deliver (pages : List ListObjectsV2Output) : List (Reply ListObjectsV2Output) :=
  pages.map (fun page => .settles 120 (.ok page))

/-! # Theorems -/

/-! ## The two regular expressions -/

theorem matchPieces_end (s : Str) :
    matchPieces true [] s = if s = [] then some [] else none := by
  simp [matchPieces]

theorem plusLoop_notDot (e : Str) :
    plusLoop (matchPieces true []) (.notLit '.') e
      = if e ≠ [] ∧ '.' ∉ e then some [] else none := by
  induction e with
  | nil => simp [plusLoop]
  | cons c t ih =>
    rw [plusLoop, ih, matchPieces_end]
    by_cases hc : c = '.'
    · simp [Atom.accepts, hc]
    · have hc2 : ¬ '.' = c := fun h => hc h.symm
      by_cases ht : t = []
      · subst ht
        simp [Atom.accepts, hc, hc2]
      · by_cases hd : '.' ∈ t
        · simp [Atom.accepts, hc, ht, hd]
        · simp [Atom.accepts, hc, hc2, ht, hd]

theorem extension_matchAt_dot (e : Str) :
    extensionRegex.matchAt ('.' :: e) = if e ≠ [] ∧ '.' ∉ e then some [] else none := by
  simp only [Regex.matchAt, extensionRegex, matchPieces, Atom.accepts]
  simpa using plusLoop_notDot e

theorem extension_matchAt_other (c : Char) (t : Str) (hc : c ≠ '.') :
    extensionRegex.matchAt (c :: t) = none := by
  simp [Regex.matchAt, extensionRegex, matchPieces, Atom.accepts, hc]

/-- Removal of a last extension segment `.e`. -/
theorem replace_extension (s e : Str) (he : e ≠ []) (hd : '.' ∉ e) :
    replace extensionRegex [] (s ++ '.' :: e) = s := by
  induction s with
  | nil => simp [replace, extension_matchAt_dot, he, hd]
  | cons c t ih =>
    by_cases hc : c = '.'
    · subst hc
      have hmem : '.' ∈ t ++ '.' :: e := by simp
      simp only [List.cons_append, replace, extension_matchAt_dot]
      simp [hmem, ih]
    · simp only [List.cons_append, replace, extension_matchAt_other _ _ hc, List.append_eq, ih]

theorem trailingSlash_matchAt (s : Str) :
    trailingSlashRegex.matchAt s = if s = [] ∨ s = ['/'] then some [] else none := by
  cases s with
  | nil => simp [Regex.matchAt, trailingSlashRegex, matchPieces]
  | cons c t =>
    by_cases hc : c = '/'
    · by_cases ht : t = []
      · simp [Regex.matchAt, trailingSlashRegex, matchPieces, Atom.accepts, hc, ht]
      · simp [Regex.matchAt, trailingSlashRegex, matchPieces, Atom.accepts, hc, ht]
    · simp [Regex.matchAt, trailingSlashRegex, matchPieces, Atom.accepts, hc]

/-- The replacement `replace(/\/?$/, '/')` keeps a string that ends with `/`
and appends `/` to any other string. -/
theorem replace_trailingSlash (s : Str) :
    replace trailingSlashRegex ['/'] s = if s.getLast? = some '/' then s else s ++ ['/'] := by
  induction s with
  | nil => simp [replace, trailingSlash_matchAt]
  | cons c t ih =>
    by_cases ht : t = []
    · subst ht
      by_cases hc : c = '/'
      · simp [replace, trailingSlash_matchAt, hc]
      · simp [replace, trailingSlash_matchAt, hc]
    · have h1 : ¬ (c :: t = ['/']) := by simp [ht]
      have h2 : (c :: t).getLast? = t.getLast? := by
        cases t with
        | nil => exact absurd rfl ht
        | cons d u => simp [List.getLast?_cons_cons]
      simp only [replace, trailingSlash_matchAt, h2, ih]
      by_cases hl : t.getLast? = some '/'
      · simp [hl, ht]
      · simp [hl, ht]

/-! ## Strings: helper lemmas -/

theorem endsWith_iff (s suf : Str) : endsWith s suf = true ↔ ∃ a, s = a ++ suf := by
  unfold endsWith
  rw [List.isSuffixOf_iff_suffix]
  constructor
  · rintro ⟨a, ha⟩
    exact ⟨a, ha.symm⟩
  · rintro ⟨a, ha⟩
    exact ⟨a, ha.symm⟩

theorem endsWith_slash_iff (s : Str) : endsWith s ['/'] = true ↔ s.getLast? = some '/' := by
  rw [endsWith_iff, List.getLast?_eq_some_iff]

theorem normalizePrefix_eq (p : Str) :
    normalizePrefix p = if endsWith (trim p) ['/'] = true then trim p else trim p ++ ['/'] := by
  unfold normalizePrefix
  show replace trailingSlashRegex ['/'] (trim p) = _
  rw [replace_trailingSlash]
  by_cases h : (trim p).getLast? = some '/'
  · simp [h, (endsWith_slash_iff _).2 h]
  · have h2 : ¬ endsWith (trim p) ['/'] = true := fun h3 => h ((endsWith_slash_iff _).1 h3)
    simp [h, h2]

theorem asciiLowerCase_endsWith (a s suf : Str) (h : asciiLowerCase s = suf) :
    endsWith (asciiLowerCase (a ++ s)) suf = true := by
  rw [endsWith_iff]
  exact ⟨asciiLowerCase a, by simp [asciiLowerCase, ← h]⟩

/-! ## The filter -/

/-- Claim C1: `shouldProcess` accepts a key exactly when none of the three
rejection rules matches it: (a) the lower-cased key ends with `.webp`, (b) an
include-prefix is configured and the key does not start with it, (c) the key
starts with some exclude-prefix.  So a key whose lower-cased form ends with
`.webp` is rejected in every configuration, a key outside the include-prefix
is rejected whatever the exclude-prefixes are, and, for a `toLowerCase` that
maps a key ending in a letter-case variant of `.webp` to a string ending in
`.webp`, every such key is rejected. -/
theorem shouldProcess_iff_no_rule (toLowerCase : Str → Str) (cfg : Config) (key : Str) :
    (shouldProcess toLowerCase cfg key = true ↔
      ¬ endsWith (toLowerCase key) ".webp".toList = true ∧
      ¬ (∃ p, cfg.INCLUDE_PREFIX = some p ∧ startsWith key p = false) ∧
      ¬ (∃ p ∈ cfg.EXCLUDE_PREFIXES, startsWith key p = true)) ∧
    (endsWith (toLowerCase key) ".webp".toList = true →
      shouldProcess toLowerCase cfg key = false) ∧
    (∀ p, cfg.INCLUDE_PREFIX = some p → startsWith key p = false →
      shouldProcess toLowerCase cfg key = false) ∧
    ((∀ a s : Str, asciiLowerCase s = ".webp".toList →
        endsWith (toLowerCase (a ++ s)) ".webp".toList = true) →
      ∀ a s : Str, asciiLowerCase s = ".webp".toList →
        shouldProcess toLowerCase cfg (a ++ s) = false) := by
  have hinc : ∀ k : Str, (match cfg.INCLUDE_PREFIX with
      | some p => truthy (some p) && !startsWith k p
      | none => false) = true ↔ ∃ p, cfg.INCLUDE_PREFIX = some p ∧ startsWith k p = false := by
    intro k
    cases hi : cfg.INCLUDE_PREFIX with
    | none => simp
    | some p =>
      cases p with
      | nil => simp [truthy, startsWith]
      | cons c t => simp [truthy]
  have hweb : ∀ k : Str, endsWith (toLowerCase k) ".webp".toList = true →
      shouldProcess toLowerCase cfg k = false := by
    intro k h
    unfold shouldProcess
    rw [if_pos h]
  refine ⟨?_, hweb key, ?_, ?_⟩
  · unfold shouldProcess
    by_cases h1 : endsWith (toLowerCase key) ".webp".toList = true
    · rw [if_pos h1]
      constructor
      · intro h
        exact absurd h (by decide)
      · intro h
        exact absurd h1 h.1
    · rw [if_neg h1]
      by_cases h2 : ∃ p, cfg.INCLUDE_PREFIX = some p ∧ startsWith key p = false
      · rw [if_pos ((hinc key).2 h2)]
        constructor
        · intro h
          exact absurd h (by decide)
        · intro h
          exact absurd h2 h.2.1
      · rw [if_neg (fun h => h2 ((hinc key).1 h))]
        by_cases h3 : ∃ p ∈ cfg.EXCLUDE_PREFIXES, startsWith key p = true
        · have h3b : cfg.EXCLUDE_PREFIXES.any (fun pre => startsWith key pre) = true :=
            List.any_eq_true.2 h3
          rw [if_pos h3b]
          constructor
          · intro h
            exact absurd h (by decide)
          · intro h
            exact absurd h3 h.2.2
        · have h3b : ¬ cfg.EXCLUDE_PREFIXES.any (fun pre => startsWith key pre) = true :=
            fun h => h3 (List.any_eq_true.1 h)
          rw [if_neg h3b]
          simp only [true_iff]
          exact ⟨h1, h2, h3⟩
  · intro p hp hs
    unfold shouldProcess
    by_cases h1 : endsWith (toLowerCase key) ".webp".toList = true
    · rw [if_pos h1]
    · rw [if_neg h1, if_pos ((hinc key).2 ⟨p, hp, hs⟩)]
  · intro hlc a s hs
    exact hweb _ (hlc a s hs)

/-- Claim C1, at `toLowerCase := asciiLowerCase`, include-prefix `img/` and
exclude-prefix `tmp/`: the keys `img/b.webp`, `photos/a.png` and `img/A.WebP`
are rejected. -/
theorem shouldProcess_iff_no_rule_witness :
    shouldProcess asciiLowerCase ⟨["tmp/".toList], some "img/".toList, 5, false⟩
      "img/b.webp".toList = false ∧
    shouldProcess asciiLowerCase ⟨["tmp/".toList], some "img/".toList, 5, false⟩
      "photos/a.png".toList = false ∧
    shouldProcess asciiLowerCase ⟨["tmp/".toList], some "img/".toList, 5, false⟩
      ("img/A".toList ++ ".WebP".toList) = false :=
  ⟨(shouldProcess_iff_no_rule asciiLowerCase ⟨["tmp/".toList], some "img/".toList, 5, false⟩
      "img/b.webp".toList).2.1 (by decide),
   (shouldProcess_iff_no_rule asciiLowerCase ⟨["tmp/".toList], some "img/".toList, 5, false⟩
      "photos/a.png".toList).2.2.1 "img/".toList rfl (by decide),
   (shouldProcess_iff_no_rule asciiLowerCase ⟨["tmp/".toList], some "img/".toList, 5, false⟩
      "img/a.png".toList).2.2.2
    (fun a s hs => asciiLowerCase_endsWith a s _ hs) "img/A".toList ".WebP".toList (by decide)⟩

/-! ## The target key -/

/-- Claim C2: the target key replaces the last extension segment only, and
deriving the target of a target changes nothing. -/
theorem webpKey_last_extension_idempotent :
    (∀ s e : Str, e ≠ [] → '.' ∉ e → webpKey (s ++ ".".toList ++ e) = s ++ ".webp".toList) ∧
    webpKey "a/b.png".toList = "a/b.webp".toList ∧
    webpKey "a/b.tar.gz".toList = "a/b.tar.webp".toList ∧
    (∀ k : Str, webpKey (webpKey k) = webpKey k) := by
  refine ⟨?_, by decide, by decide, ?_⟩
  · intro s e he hd
    show replace extensionRegex [] (s ++ ['.'] ++ e) ++ _ = _
    rw [List.append_assoc, List.singleton_append, replace_extension s e he hd]
  · intro k
    have h : webpKey k = replace extensionRegex [] k ++ '.' :: "webp".toList := rfl
    rw [h]
    show replace extensionRegex [] (replace extensionRegex [] k ++ '.' :: "webp".toList) ++ _ = _
    rw [replace_extension _ _ (by decide) (by decide)]
    rfl

/-- Claim C2, at the key `a/b.tar.gz`. -/
theorem webpKey_last_extension_idempotent_witness :
    webpKey ("a/b.tar".toList ++ ".".toList ++ "gz".toList) = "a/b.tar".toList ++ ".webp".toList :=
  webpKey_last_extension_idempotent.1 "a/b.tar".toList "gz".toList (by decide) (by decide)

/-- Claim C8 as stated fails: the distinct keys `a.png` and `a.jpg` have the
same target key `a.webp`. -/
theorem webpKey_not_injective :
    "a.png".toList ≠ "a.jpg".toList ∧
    webpKey "a.png".toList = "a.webp".toList ∧
    webpKey "a.jpg".toList = "a.webp".toList := by decide

/-- Claim C8, amended: the mapping from keys to target keys is many-to-one.
For a key `s.e` whose extension `e` is not empty and holds neither `.` nor `/`
the target key is `s.webp`, so two such keys `s1.e1` and `s2.e2` have the same
target key exactly when `s1 = s2`: keys that differ in their extension only
share a target key, and keys with different stems have different target
keys. -/
theorem webpKey_eq_iff (s1 e1 s2 e2 : Str)
    (he1 : e1 ≠ []) (hd1 : '.' ∉ e1) (_hs1 : '/' ∉ e1)
    (he2 : e2 ≠ []) (hd2 : '.' ∉ e2) (_hs2 : '/' ∉ e2) :
    webpKey (s1 ++ ".".toList ++ e1) = s1 ++ ".webp".toList ∧
    webpKey (s2 ++ ".".toList ++ e2) = s2 ++ ".webp".toList ∧
    (webpKey (s1 ++ ".".toList ++ e1) = webpKey (s2 ++ ".".toList ++ e2) ↔ s1 = s2) := by
  have h1 : webpKey (s1 ++ ".".toList ++ e1) = s1 ++ ".webp".toList := by
    show replace extensionRegex [] (s1 ++ ['.'] ++ e1) ++ _ = _
    rw [List.append_assoc, List.singleton_append, replace_extension s1 e1 he1 hd1]
  have h2 : webpKey (s2 ++ ".".toList ++ e2) = s2 ++ ".webp".toList := by
    show replace extensionRegex [] (s2 ++ ['.'] ++ e2) ++ _ = _
    rw [List.append_assoc, List.singleton_append, replace_extension s2 e2 he2 hd2]
  refine ⟨h1, h2, ?_⟩
  rw [h1, h2]
  exact List.append_left_inj _

/-- Claim C8, amended, at the keys `img/a.png` and `img/b.jpg`. -/
theorem webpKey_eq_iff_witness :
    webpKey ("img/a".toList ++ ".".toList ++ "png".toList) = "img/a".toList ++ ".webp".toList ∧
    webpKey ("img/b".toList ++ ".".toList ++ "jpg".toList) = "img/b".toList ++ ".webp".toList ∧
    (webpKey ("img/a".toList ++ ".".toList ++ "png".toList)
      = webpKey ("img/b".toList ++ ".".toList ++ "jpg".toList) ↔
      "img/a".toList = "img/b".toList) :=
  webpKey_eq_iff "img/a".toList "png".toList "img/b".toList "jpg".toList
    (by decide) (by decide) (by decide) (by decide) (by decide) (by decide)

/-- Claim C10 fails on the code at the key `photos.v2/cat`: its last path
segment has no `.` and its directory name has one, the match of
`/\.[^.]+$/` starts in the directory name and runs over the `/`, and the target
key is `photos.webp`, outside the directory `photos.v2/`. -/
theorem webpKey_loses_directory :
    webpKey "photos.v2/cat".toList = "photos.webp".toList ∧
    dirPart "photos.v2/cat".toList = "photos.v2/".toList ∧
    dirPart (webpKey "photos.v2/cat".toList) = [] := by decide

/-! ## Prefix normalisation -/

/-- Claim C9 as stated fails: the exclude-prefix `img//` is normalised to
itself, a string that ends with `//`. -/
theorem normalizePrefix_double_slash :
    "img//".toList ≠ [] ∧
    excludePrefixes ⟨some "img//".toList, none, none, false⟩ = ["img//".toList] ∧
    endsWith (normalizePrefix "img//".toList) "//".toList = true := by decide

/-! ## Computations in `Async` -/

theorem run_bind_ok {α β : Type} (x : Async α) (f : α → Async β) (st st1 : State) (a : α)
    (h : x.run st = (Except.ok a, st1)) : (x >>= f).run st = (f a).run st1 := by
  show (ExceptT.run (x >>= f)) st = _
  rw [ExceptT.run_bind]
  show (ExceptT.run x >>= _) st = _
  simp only [bind, StateT.bind]
  have h2 : ExceptT.run x st = (Except.ok a, st1) := h
  rw [h2]

theorem run_bind_error {α β : Type} (x : Async α) (f : α → Async β) (st st1 : State)
    (e : JSError) (h : x.run st = (Except.error e, st1)) :
    (x >>= f).run st = (Except.error e, st1) := by
  show (ExceptT.run (x >>= f)) st = _
  rw [ExceptT.run_bind]
  show (ExceptT.run x >>= _) st = _
  simp only [bind, StateT.bind]
  have h2 : ExceptT.run x st = (Except.error e, st1) := h
  rw [h2]
  rfl

theorem run_tryCatch_ok {α : Type} (x : Async α) (handler : JSError → Async α)
    (st st1 : State) (a : α) (h : x.run st = (Except.ok a, st1)) :
    (tryCatch x handler).run st = (Except.ok a, st1) := by
  have h2 : x st = (Except.ok a, st1) := h
  show (ExceptT.run (ExceptT.tryCatch x handler)) st = _
  simp only [ExceptT.tryCatch, ExceptT.run_mk, bind, StateT.bind]
  rw [h2]
  rfl

theorem run_tryCatch_error {α : Type} (x : Async α) (handler : JSError → Async α)
    (st st1 : State) (e : JSError) (h : x.run st = (Except.error e, st1)) :
    (tryCatch x handler).run st = (handler e).run st1 := by
  have h2 : x st = (Except.error e, st1) := h
  show (ExceptT.run (ExceptT.tryCatch x handler)) st = _
  simp only [ExceptT.tryCatch, ExceptT.run_mk, bind, StateT.bind]
  rw [h2]
  rfl

theorem request_run (c : Call) (st : State) :
    (request c).run st = (Except.ok (), { st with calls := st.calls ++ [c] }) := rfl

theorem pushFailed_run (key : Str) (st : State) :
    (pushFailed key).run st = (Except.ok (), { st with failedKeys := st.failedKeys ++ [key] }) :=
  rfl

theorem await_run {α : Type} (r : Except JSError α) (st : State) :
    (await r).run st = (r, st) := by
  cases r <;> rfl

theorem run_bind {α β : Type} (x : Async α) (f : α → Async β) (st : State) :
    (x >>= f).run st
      = match x.run st with
        | (Except.ok a, st1) => (f a).run st1
        | (Except.error e, st1) => (Except.error e, st1) := by
  rcases h : x.run st with ⟨r, st1⟩
  cases r with
  | ok a => exact run_bind_ok x f st st1 a h
  | error e => exact run_bind_error x f st st1 e h

theorem run_tryCatch {α : Type} (x : Async α) (handler : JSError → Async α) (st : State) :
    (tryCatch x handler).run st
      = match x.run st with
        | (Except.ok a, st1) => (Except.ok a, st1)
        | (Except.error e, st1) => (handler e).run st1 := by
  rcases h : x.run st with ⟨r, st1⟩
  cases r with
  | ok a => exact run_tryCatch_ok x handler st st1 a h
  | error e => exact run_tryCatch_error x handler st st1 e h

theorem run_pure {α : Type} (a : α) (st : State) :
    (pure a : Async α).run st = (Except.ok a, st) := rfl

theorem run_ite {α : Type} (c : Prop) [Decidable c] (x y : Async α) (st : State) :
    (if c then x else y).run st = if c then x.run st else y.run st := by
  split <;> rfl

/-- A run of `convertImage` never throws; it sends the requests and records
the failure given by `conversion`. -/
theorem convertImage_run (env : Env) (key : Str) (st : State) :
    (convertImage env key).run st
      = (Except.ok (), st.record (conversion env key).1
          (if (conversion env key).2 then [key] else [])) := by
  unfold convertImage conversion State.record
  simp only [run_bind, run_tryCatch, run_pure, run_ite, request_run, pushFailed_run, await_run]
  generalize withTimeout (env.headObject (webpKey key)) 8000 (webpKey key) = r1
  cases r1 with
  | ok u => simp; rfl
  | error err =>
    by_cases hc : err.code = some "NotFound".toList
    · cases hd : env.cfg.DRY_RUN
      · simp only [hc, hd, run_bind, run_tryCatch, run_pure, run_ite, request_run,
          pushFailed_run, await_run, ne_eq, not_true_eq_false, if_false, Bool.false_eq_true]
        generalize withTimeout (env.getObject key) 15000 key = r2
        cases r2 with
        | error e2 => simp
        | ok obj =>
          simp only []
          obtain ⟨r3, h3⟩ : ∃ r, env.sharp obj = r := ⟨_, rfl⟩
          simp only [h3]
          cases r3 with
          | error e3 => simp
          | ok webpBuffer =>
            simp only [request_run]
            obtain ⟨r4, h4⟩ : ∃ r, withTimeout (env.putObject (webpKey key) webpBuffer)
              15000 (webpKey key) = r := ⟨_, rfl⟩
            simp only [h4]
            cases r4 with
            | error e4 => simp
            | ok u4 => simp
      · simp only [hc, hd, run_bind, run_pure, run_ite, ne_eq, not_true_eq_false, if_false,
          if_true]
        simp
    · simp only [hc, run_bind, run_pure, ne_eq, not_false_eq_true, if_true]

theorem withTimeout_expired {α : Type} (promise : Reply α) (ms : Nat) (key : Str)
    (h : promise = .pending ∨ ∃ latency result, promise = .settles latency result ∧ ms < latency) :
    ∃ err, withTimeout promise ms key = .error err ∧ err.code = none := by
  rcases h with h | ⟨latency, result, h, hl⟩
  · subst h
    exact ⟨timeoutError ms key, rfl, rfl⟩
  · subst h
    refine ⟨timeoutError ms key, ?_, rfl⟩
    unfold withTimeout
    simp only []
    rw [if_neg (Nat.not_le.2 hl)]

theorem conversion_head_ok (env : Env) (key : Str) (u : Unit)
    (h : withTimeout (env.headObject (webpKey key)) 8000 (webpKey key) = .ok u) :
    conversion env key = ([.headObject (webpKey key)], false) := by
  unfold conversion
  simp only [h]

theorem conversion_head_error (env : Env) (key : Str) (err : JSError)
    (h : withTimeout (env.headObject (webpKey key)) 8000 (webpKey key) = .error err)
    (hc : err.code ≠ some "NotFound".toList) :
    conversion env key = ([.headObject (webpKey key)], true) := by
  unfold conversion
  simp only [h]
  rw [if_pos hc]

theorem conversion_notFound (env : Env) (key : Str) (err : JSError)
    (h : withTimeout (env.headObject (webpKey key)) 8000 (webpKey key) = .error err)
    (hc : err.code = some "NotFound".toList) :
    conversion env key =
      if env.cfg.DRY_RUN then ([.headObject (webpKey key)], false)
      else
        match withTimeout (env.getObject key) 15000 key with
        | .error _ => ([.headObject (webpKey key), .getObject key], true)
        | .ok obj =>
          match env.sharp obj with
          | .error _ => ([.headObject (webpKey key), .getObject key], true)
          | .ok webpBuffer =>
            match withTimeout (env.putObject (webpKey key) webpBuffer) 15000 (webpKey key) with
            | .error _ =>
              ([.headObject (webpKey key), .getObject key, .putObject (webpKey key) webpBuffer],
                true)
            | .ok _ =>
              ([.headObject (webpKey key), .getObject key, .putObject (webpKey key) webpBuffer],
                false) := by
  unfold conversion
  simp only [h]
  rw [if_neg (fun hne => hne hc)]

/-! ## The conversion of one object -/

/-- Claim C3: on its two paths without conversion, `convertImage` does nothing
beyond the existence probe.  If `headObject` on the target key succeeds, in
any mode, or if dry-run is enabled and `headObject` fails with the code
`NotFound`, then the run returns normally and the state changes by one
`headObject` request: no `getObject`, no `putObject`, and `failedKeys` is as
before. -/
theorem convertImage_probe_only (env : Env) (key : Str) (st : State)
    (h : (∃ u, withTimeout (env.headObject (webpKey key)) 8000 (webpKey key) = .ok u) ∨
      (env.cfg.DRY_RUN = true ∧
        ∃ err, withTimeout (env.headObject (webpKey key)) 8000 (webpKey key) = .error err ∧
          err.code = some "NotFound".toList)) :
    (convertImage env key).run st
      = (Except.ok (), { st with calls := st.calls ++ [Call.headObject (webpKey key)] }) := by
  rw [convertImage_run]
  rcases h with ⟨u, hu⟩ | ⟨hd, err, he, hc⟩
  · rw [conversion_head_ok env key u hu]
    simp [State.record]
  · rw [conversion_notFound env key err he hc, hd]
    simp [State.record]

/-- Claim C3, at the key `img/a.png` in dry-run mode, with no target object
in the bucket. -/
theorem convertImage_probe_only_witness :
    (convertImage (exampleEnv true (fun _ => replyNotFound) getAll firstEvent) "img/a.png".toList).run
        State.initial
      = (Except.ok (),
          { State.initial with calls := [Call.headObject "img/a.webp".toList] }) :=
  convertImage_probe_only (exampleEnv true (fun _ => replyNotFound) getAll firstEvent)
    "img/a.png".toList State.initial
    (Or.inr ⟨rfl, ⟨some "NotFound".toList, "Not Found".toList⟩, rfl, rfl⟩)

/-- Claim C4: the first failing step of `convertImage` is terminal and is
recorded as a failure of the original key.  In each case the run returns
normally and pushes the key on `failedKeys` once.
(1) `headObject` fails with a code other than `NotFound`: the only request is
the `headObject`; (2) so it is when it exceeds its timeout, the error of the
timer having no code; (3) `getObject` fails or exceeds its timeout: the
requests are the
`headObject` and the `getObject`, no `putObject`; (4) `sharp` fails: the same
requests; (5) `putObject` fails: it is the last request; (6) a `getObject` is
only sent after a `headObject` error whose code is `NotFound`. -/
theorem convertImage_first_failure_terminal (env : Env) (key : Str) (st : State) :
    (∀ err, withTimeout (env.headObject (webpKey key)) 8000 (webpKey key) = .error err →
      err.code ≠ some "NotFound".toList →
      (convertImage env key).run st
        = (Except.ok (), { st with calls := st.calls ++ [Call.headObject (webpKey key)],
                                   failedKeys := st.failedKeys ++ [key] })) ∧
    ((env.headObject (webpKey key) = .pending ∨
        ∃ latency result, env.headObject (webpKey key) = .settles latency result ∧
          8000 < latency) →
      (convertImage env key).run st
        = (Except.ok (), { st with calls := st.calls ++ [Call.headObject (webpKey key)],
                                   failedKeys := st.failedKeys ++ [key] })) ∧
    (∀ err, withTimeout (env.headObject (webpKey key)) 8000 (webpKey key) = .error err →
      err.code = some "NotFound".toList → env.cfg.DRY_RUN = false →
      ((∃ e, withTimeout (env.getObject key) 15000 key = .error e) ∨
        env.getObject key = .pending ∨
        ∃ latency result, env.getObject key = .settles latency result ∧ 15000 < latency) →
      (convertImage env key).run st
        = (Except.ok (),
            { st with calls := st.calls ++ [Call.headObject (webpKey key), Call.getObject key],
                      failedKeys := st.failedKeys ++ [key] })) ∧
    (∀ err obj e, withTimeout (env.headObject (webpKey key)) 8000 (webpKey key) = .error err →
      err.code = some "NotFound".toList → env.cfg.DRY_RUN = false →
      withTimeout (env.getObject key) 15000 key = .ok obj → env.sharp obj = .error e →
      (convertImage env key).run st
        = (Except.ok (),
            { st with calls := st.calls ++ [Call.headObject (webpKey key), Call.getObject key],
                      failedKeys := st.failedKeys ++ [key] })) ∧
    (∀ err obj webpBuffer e,
      withTimeout (env.headObject (webpKey key)) 8000 (webpKey key) = .error err →
      err.code = some "NotFound".toList → env.cfg.DRY_RUN = false →
      withTimeout (env.getObject key) 15000 key = .ok obj → env.sharp obj = .ok webpBuffer →
      withTimeout (env.putObject (webpKey key) webpBuffer) 15000 (webpKey key) = .error e →
      (convertImage env key).run st
        = (Except.ok (),
            { st with calls := st.calls ++ [Call.headObject (webpKey key), Call.getObject key,
                        Call.putObject (webpKey key) webpBuffer],
                      failedKeys := st.failedKeys ++ [key] })) ∧
    (∀ err, withTimeout (env.headObject (webpKey key)) 8000 (webpKey key) = .error err →
      Call.getObject key ∈ ((convertImage env key).run State.initial).2.calls →
      err.code = some "NotFound".toList) := by
  have hhead : ∀ err, withTimeout (env.headObject (webpKey key)) 8000 (webpKey key) = .error err →
      err.code ≠ some "NotFound".toList →
      (convertImage env key).run st
        = (Except.ok (), { st with calls := st.calls ++ [Call.headObject (webpKey key)],
                                   failedKeys := st.failedKeys ++ [key] }) := by
    intro err he hc
    rw [convertImage_run, conversion_head_error env key err he hc]
    simp [State.record]
  have hget : ∀ err e, withTimeout (env.headObject (webpKey key)) 8000 (webpKey key) = .error err →
      err.code = some "NotFound".toList → env.cfg.DRY_RUN = false →
      withTimeout (env.getObject key) 15000 key = .error e →
      (convertImage env key).run st
        = (Except.ok (),
            { st with calls := st.calls ++ [Call.headObject (webpKey key), Call.getObject key],
                      failedKeys := st.failedKeys ++ [key] }) := by
    intro err e he hc hd hg
    rw [convertImage_run, conversion_notFound env key err he hc, hd]
    simp [State.record, hg]
  refine ⟨hhead, ?_, ?_, ?_, ?_, ?_⟩
  · intro h
    obtain ⟨err, he, hc⟩ := withTimeout_expired _ 8000 (webpKey key) h
    exact hhead err he (by rw [hc]; exact fun h => Option.noConfusion h)
  · intro err he hc hd hg
    rcases hg with ⟨e, hg⟩ | hg
    · exact hget err e he hc hd hg
    · obtain ⟨e, hg, _⟩ := withTimeout_expired _ 15000 key hg
      exact hget err e he hc hd hg
  · intro err obj e he hc hd hg hs
    rw [convertImage_run, conversion_notFound env key err he hc, hd]
    simp [State.record, hg, hs]
  · intro err obj webpBuffer e he hc hd hg hs hp
    rw [convertImage_run, conversion_notFound env key err he hc, hd]
    simp [State.record, hg, hs, hp]
  · intro err he hmem
    by_contra hc
    rw [convertImage_run, conversion_head_error env key err he hc] at hmem
    simp [State.record, State.initial] at hmem

/-- Claim C4, at the key `img/a.png`: access denied on `headObject`, a
`headObject` that stays pending, a `getObject` that stays pending, a `sharp`
that rejects the image, a `putObject` slower than its timer, and a run that
reaches `getObject`. -/
theorem convertImage_first_failure_terminal_witness :
    (convertImage (exampleEnv false (fun _ => replyForbidden) getAll firstEvent)
        "img/a.png".toList).run State.initial
      = (Except.ok (), { State.initial with
          calls := [Call.headObject "img/a.webp".toList],
          failedKeys := ["img/a.png".toList] }) ∧
    (convertImage (exampleEnv false (fun _ => .pending) getAll firstEvent)
        "img/a.png".toList).run State.initial
      = (Except.ok (), { State.initial with
          calls := [Call.headObject "img/a.webp".toList],
          failedKeys := ["img/a.png".toList] }) ∧
    (convertImage (exampleEnv false (fun _ => replyNotFound) (fun _ => .pending) firstEvent)
        "img/a.png".toList).run State.initial
      = (Except.ok (), { State.initial with
          calls := [Call.headObject "img/a.webp".toList, Call.getObject "img/a.png".toList],
          failedKeys := ["img/a.png".toList] }) ∧
    (convertImage exampleEnvBadImage "img/a.png".toList).run State.initial
      = (Except.ok (), { State.initial with
          calls := [Call.headObject "img/a.webp".toList, Call.getObject "img/a.png".toList],
          failedKeys := ["img/a.png".toList] }) ∧
    (convertImage exampleEnvSlowPut "img/a.png".toList).run State.initial
      = (Except.ok (), { State.initial with
          calls := [Call.headObject "img/a.webp".toList, Call.getObject "img/a.png".toList,
            Call.putObject "img/a.webp".toList [0x52, 0x89, 0x50]],
          failedKeys := ["img/a.png".toList] }) ∧
    (⟨some "NotFound".toList, "Not Found".toList⟩ : JSError).code = some "NotFound".toList :=
  ⟨(convertImage_first_failure_terminal (exampleEnv false (fun _ => replyForbidden) getAll firstEvent)
      "img/a.png".toList State.initial).1
      ⟨some "Forbidden".toList, "Forbidden".toList⟩ rfl (by decide),
   (convertImage_first_failure_terminal (exampleEnv false (fun _ => .pending) getAll firstEvent)
      "img/a.png".toList State.initial).2.1 (Or.inl rfl),
   (convertImage_first_failure_terminal
      (exampleEnv false (fun _ => replyNotFound) (fun _ => .pending) firstEvent)
      "img/a.png".toList State.initial).2.2.1
      ⟨some "NotFound".toList, "Not Found".toList⟩ rfl rfl rfl (Or.inr (Or.inl rfl)),
   (convertImage_first_failure_terminal exampleEnvBadImage
      "img/a.png".toList State.initial).2.2.2.1
      ⟨some "NotFound".toList, "Not Found".toList⟩ [0x89, 0x50]
      ⟨none, "Input buffer contains unsupported image format".toList⟩ rfl rfl rfl rfl rfl,
   (convertImage_first_failure_terminal exampleEnvSlowPut
      "img/a.png".toList State.initial).2.2.2.2.1
      ⟨some "NotFound".toList, "Not Found".toList⟩ [0x89, 0x50] [0x52, 0x89, 0x50]
      (timeoutError 15000 "img/a.webp".toList) rfl rfl rfl rfl rfl rfl,
   (convertImage_first_failure_terminal (exampleEnv false (fun _ => replyNotFound) getAll firstEvent)
      "img/a.png".toList State.initial).2.2.2.2.2
      ⟨some "NotFound".toList, "Not Found".toList⟩ rfl (by decide)⟩

/-! ## The tasks of a page -/

theorem modify_run (f : State → State) (st : State) :
    (modify f : Async Unit).run st = (Except.ok (), f st) := rfl

theorem get_run (st : State) : (get : Async State).run st = (Except.ok st, st) := rfl

theorem set_run (st1 st : State) : (set st1 : Async Unit).run st = (Except.ok (), st1) := rfl

theorem liftExcept_run {α : Type} (r : Except JSError α) (st : State) :
    (liftExcept r : Async α).run st = (r, st) := by
  cases r <;> rfl

theorem task_run (env : Env) (key : Str) (st : State) :
    (task env key).run st
      = (Except.ok (), (st.record (conversion env key).1
          (if (conversion env key).2 then [key] else [])).finish) := by
  unfold task
  simp only [run_bind, convertImage_run, modify_run]
  rfl

/-- The task as a sequence of resumptions is the task of source lines 120 to
126: started and resumed on its own until it ends, it leaves the state that
`task` leaves. -/
theorem finishFrom_eq_task (env : Env) (key : Str) (st : State) :
    finishFrom env key 4 (startTask key st).2 (startTask key st).1
      = ((task env key).run st).2 := by
  rw [task_run]
  unfold conversion
  simp only [finishFrom, startTask, resume]
  obtain ⟨r1, h1⟩ : ∃ r, withTimeout (env.headObject (webpKey key)) 8000 (webpKey key) = r :=
    ⟨_, rfl⟩
  simp only [h1]
  cases r1 with
  | ok u => simp [State.finish, State.send, State.record]
  | error err =>
    by_cases hc : err.code = some "NotFound".toList
    · cases hd : env.cfg.DRY_RUN
      · simp only [hc, ne_eq, not_true_eq_false, if_false, Bool.false_eq_true]
        obtain ⟨r2, h2⟩ : ∃ r, withTimeout (env.getObject key) 15000 key = r := ⟨_, rfl⟩
        simp only [h2]
        cases r2 with
        | error e2 => simp [State.finish, State.send, State.record, State.push]
        | ok obj =>
          simp only []
          obtain ⟨r3, h3⟩ : ∃ r, env.sharp obj = r := ⟨_, rfl⟩
          simp only [h3]
          cases r3 with
          | error e3 => simp [State.finish, State.send, State.record, State.push]
          | ok webpBuffer =>
            simp only []
            obtain ⟨r4, h4⟩ : ∃ r, withTimeout (env.putObject (webpKey key) webpBuffer)
              15000 (webpKey key) = r := ⟨_, rfl⟩
            simp only [h4]
            cases r4 with
            | error e4 => simp [State.finish, State.send, State.record, State.push]
            | ok u4 => simp [State.finish, State.send, State.record, State.push]
      · simp only [hc, ne_eq, not_true_eq_false, if_false, if_true]
        simp [State.finish, State.send, State.record]
    · simp only [hc, ne_eq, not_false_eq_true, if_true]
      simp [State.finish, State.send, State.record, State.push]

theorem pick_perm {α : Type} (l : List α) :
    ∀ (i : Nat) (a : α) (others : List α), pick i l = some (a, others) → l.Perm (a :: others) := by
  induction l with
  | nil => intro i a others h; cases i <;> simp [pick] at h
  | cons b l ih =>
    intro i a others h
    cases i with
    | zero =>
      simp only [pick, Option.some.injEq, Prod.mk.injEq] at h
      rw [h.1, h.2]
    | succ i =>
      simp only [pick] at h
      cases hp : pick i l with
      | none => simp [hp] at h
      | some r =>
        obtain ⟨c, rest⟩ := r
        simp only [hp, Option.some.injEq, Prod.mk.injEq] at h
        rw [← h.1, ← h.2]
        exact ((ih i c rest hp).cons b).trans (List.Perm.swap c b rest)

theorem pick_none {α : Type} (l : List α) :
    ∀ i : Nat, pick i l = none → l.length ≤ i := by
  induction l with
  | nil => intro i _; exact Nat.zero_le _
  | cons b l ih =>
    intro i h
    cases i with
    | zero => simp [pick] at h
    | succ i =>
      simp only [pick] at h
      cases hp : pick i l with
      | none =>
        have := ih i hp
        simp only [List.length_cons]
        omega
      | some r => simp [hp] at h

theorem coe_append {α : Type} (l m : List α) :
    ((l ++ m : List α) : Multiset α) = (l : Multiset α) + (m : Multiset α) :=
  (Multiset.coe_add l m).symm

theorem coe_flatMap_perm {α β : Type} (f : α → List β) (l m : List α) (h : l.Perm m) :
    ((l.flatMap f : List β) : Multiset β) = ((m.flatMap f : List β) : Multiset β) :=
  Multiset.coe_eq_coe.2 (List.Perm.flatMap_right f h)

theorem conversion_calls (env : Env) (key : Str) :
    (conversion env key).1 = Call.headObject (webpKey key) :: (remaining env key .head).1 := by
  show _ = _ :: (conversion env key).1.tail
  have h : ∃ t, (conversion env key).1 = Call.headObject (webpKey key) :: t := by
    unfold conversion
    repeat' split
    all_goals exact ⟨_, rfl⟩
  obtain ⟨t, ht⟩ := h
  rw [ht]
  rfl

theorem resume_conserves (env : Env) (key : Str) (phase : Phase) (st : State) :
    (resume env key phase st).1.calls ++ (remainingNext env key (resume env key phase st).2).1
      = st.calls ++ (remaining env key phase).1 ∧
    (resume env key phase st).1.failedKeys
        ++ (if (remainingNext env key (resume env key phase st).2).2 then [key] else [])
      = st.failedKeys ++ (if (remaining env key phase).2 then [key] else []) ∧
    (resume env key phase st).1.totalProcessed
        + (if (resume env key phase st).2.isSome then 1 else 0)
      = st.totalProcessed + 1 ∧
    (resume env key phase st).1.totalCount = st.totalCount ∧
    (resume env key phase st).1.failedKeysFile = st.failedKeysFile ∧
    (∃ cs, (resume env key phase st).1.calls = st.calls ++ cs) ∧
    (∃ failed, (resume env key phase st).1.failedKeys = st.failedKeys ++ failed) ∧
    (∀ next, (resume env key phase st).2 = some next → next.rank < phase.rank) := by
  cases phase with
  | head =>
    have hconv : (remaining env key .head) = ((conversion env key).1.tail, (conversion env key).2) :=
      rfl
    rw [hconv]
    unfold conversion
    simp only [resume]
    obtain ⟨r1, h1⟩ : ∃ r, withTimeout (env.headObject (webpKey key)) 8000 (webpKey key) = r :=
      ⟨_, rfl⟩
    simp only [h1]
    cases r1 with
    | ok u => simp [remainingNext, State.finish, State.push, State.send, Phase.rank]
    | error err =>
      by_cases hc : err.code = some "NotFound".toList
      · cases hd : env.cfg.DRY_RUN
        · simp only [hc, ne_eq, not_true_eq_false, if_false, Bool.false_eq_true, remainingNext,
            remaining]
          obtain ⟨r2, h2⟩ : ∃ r, withTimeout (env.getObject key) 15000 key = r := ⟨_, rfl⟩
          simp only [h2]
          cases r2 with
          | error e2 => simp [State.finish, State.push, State.send, Phase.rank]
          | ok obj =>
            simp only []
            obtain ⟨r3, h3⟩ : ∃ r, env.sharp obj = r := ⟨_, rfl⟩
            simp only [h3]
            cases r3 with
            | error e3 => simp [State.finish, State.push, State.send, Phase.rank]
            | ok webpBuffer =>
              simp only []
              obtain ⟨r4, h4⟩ : ∃ r, withTimeout (env.putObject (webpKey key) webpBuffer)
                15000 (webpKey key) = r := ⟨_, rfl⟩
              simp only [h4]
              cases r4 <;> simp [State.finish, State.push, State.send, Phase.rank]
        · simp only [hc, ne_eq, not_true_eq_false, if_false, if_true]
          simp [remainingNext, State.finish, State.push, State.send, Phase.rank]
      · simp only [hc, ne_eq, not_false_eq_true, if_true]
        simp [remainingNext, State.finish, State.push, State.send, Phase.rank]
  | get =>
    simp only [resume, remaining]
    obtain ⟨r2, h2⟩ : ∃ r, withTimeout (env.getObject key) 15000 key = r := ⟨_, rfl⟩
    simp only [h2]
    cases r2 with
    | error e2 => simp [remainingNext, State.finish, State.push, State.send, Phase.rank]
    | ok obj =>
      simp only [remainingNext, remaining]
      simp [Phase.rank]
  | sharp obj =>
    simp only [resume, remaining]
    obtain ⟨r3, h3⟩ : ∃ r, env.sharp obj = r := ⟨_, rfl⟩
    simp only [h3]
    cases r3 with
    | error e3 => simp [remainingNext, State.finish, State.push, State.send, Phase.rank]
    | ok webpBuffer =>
      simp only [remainingNext, remaining]
      obtain ⟨r4, h4⟩ : ∃ r, withTimeout (env.putObject (webpKey key) webpBuffer)
        15000 (webpKey key) = r := ⟨_, rfl⟩
      simp only [h4]
      cases r4 <;> simp [State.finish, State.push, State.send, Phase.rank]
  | put webpBuffer =>
    simp only [resume, remaining]
    obtain ⟨r4, h4⟩ : ∃ r, withTimeout (env.putObject (webpKey key) webpBuffer)
      15000 (webpKey key) = r := ⟨_, rfl⟩
    simp only [h4]
    cases r4 <;> simp [remainingNext, State.finish, State.push, State.send, Phase.rank]

theorem Phase.rank_pos (phase : Phase) : 0 < phase.rank := by
  cases phase <;> simp [Phase.rank]

theorem Conserves.refl (env : Env) (lim : Limiter) (st : State) : Conserves env lim st lim st :=
  ⟨rfl, rfl, rfl, rfl, rfl, ⟨[], by simp⟩, ⟨[], by simp⟩⟩

theorem Conserves.trans {env : Env} {lim lim1 lim2 : Limiter} {st st1 st2 : State}
    (h : Conserves env lim st lim1 st1) (h1 : Conserves env lim1 st1 lim2 st2) :
    Conserves env lim st lim2 st2 := by
  obtain ⟨cs, hcs⟩ := h.calls
  obtain ⟨cs1, hcs1⟩ := h1.calls
  obtain ⟨fs, hfs⟩ := h.failedKeys
  obtain ⟨fs1, hfs1⟩ := h1.failedKeys
  exact ⟨h1.allCalls.trans h.allCalls, h1.allFailed.trans h.allFailed, h1.tasks.trans h.tasks,
    h1.totalCount.trans h.totalCount, h1.failedKeysFile.trans h.failedKeysFile,
    ⟨cs ++ cs1, by rw [hcs1, hcs, List.append_assoc]⟩,
    ⟨fs ++ fs1, by rw [hfs1, hfs, List.append_assoc]⟩⟩

theorem multiset_settle {α : Type} (a a1 r r1 o q : Multiset α) (h : a1 + r1 = a + r) :
    a1 + (o + r1) + q = a + (r + o) + q := by
  calc a1 + (o + r1) + q = (a1 + r1) + o + q := by abel
    _ = (a + r) + o + q := by rw [h]
    _ = a + (r + o) + q := by abel

theorem settle_conserves (env : Env) (lim : Limiter) (st : State) (key : Str) (phase : Phase)
    (others : List (Str × Phase)) (hperm : lim.active.Perm ((key, phase) :: others)) :
    Conserves env lim st
      ⟨lim.queue, match (resume env key phase st).2 with
        | some next => others ++ [(key, next)]
        | none => others⟩
      (resume env key phase st).1 := by
  obtain ⟨h1, h2, h3, h4, h5, h6, h7, _⟩ := resume_conserves env key phase st
  have hlen : lim.active.length = others.length + 1 := by
    rw [hperm.length_eq, List.length_cons]
  have c1 := congrArg (fun l : List Call => (l : Multiset Call)) h1
  have c2 := congrArg (fun l : List Str => (l : Multiset Str)) h2
  simp only [coe_append] at c1 c2
  refine ⟨?_, ?_, ?_, h4, h5, h6, h7⟩
  · unfold Limiter.allCalls
    rw [coe_flatMap_perm _ _ _ hperm]
    cases hn : (resume env key phase st).2 with
    | none =>
      rw [hn] at c1
      simp only [List.flatMap_cons, coe_append]
      have := multiset_settle _ _ _ _
        ((others.flatMap (fun a => (remaining env a.1 a.2).1) : List Call) : Multiset Call)
        ((lim.queue.flatMap (fun key => (conversion env key).1) : List Call) : Multiset Call) c1
      simpa [remainingNext] using this
    | some next =>
      rw [hn] at c1
      simp only [List.flatMap_cons, List.flatMap_append, List.flatMap_nil, List.append_nil,
        coe_append]
      exact multiset_settle _ _ _ _ _ _ c1
  · unfold Limiter.allFailed
    rw [coe_flatMap_perm _ _ _ hperm]
    cases hn : (resume env key phase st).2 with
    | none =>
      rw [hn] at c2
      simp only [List.flatMap_cons, coe_append]
      have := multiset_settle _ _ _ _
        ((others.flatMap
          (fun a => if (remaining env a.1 a.2).2 then [a.1] else []) : List Str) : Multiset Str)
        ((lim.queue.flatMap
          (fun key => if (conversion env key).2 then [key] else []) : List Str) : Multiset Str) c2
      simpa [remainingNext] using this
    | some next =>
      rw [hn] at c2
      simp only [List.flatMap_cons, List.flatMap_append, List.flatMap_nil, List.append_nil,
        coe_append]
      exact multiset_settle _ _ _ _ _ _ c2
  · cases hn : (resume env key phase st).2 with
    | none =>
      rw [hn] at h3
      simp only [Option.isSome_none, Bool.false_eq_true, if_false, Nat.add_zero] at h3
      simp only []
      omega
    | some next =>
      rw [hn] at h3
      simp only [Option.isSome_some, if_true] at h3
      simp only [List.length_append, List.length_singleton]
      omega

theorem start_conserves (env : Env) (lim : Limiter) (st : State) (key : Str) (rest : List Str)
    (hq : lim.queue = key :: rest) :
    Conserves env lim st ⟨rest, lim.active ++ [(key, (startTask key st).2)]⟩
      (startTask key st).1 := by
  refine ⟨?_, ?_, ?_, rfl, rfl, ⟨[Call.headObject (webpKey key)], rfl⟩, ⟨[], by simp [startTask, State.send]⟩⟩
  · unfold Limiter.allCalls
    rw [hq]
    simp only [startTask, State.send, List.flatMap_cons, List.flatMap_append, List.flatMap_nil,
      List.append_nil, conversion_calls env key, coe_append]
    rw [show (Call.headObject (webpKey key) :: (remaining env key .head).1)
      = [Call.headObject (webpKey key)] ++ (remaining env key .head).1 from rfl, coe_append]
    abel
  · unfold Limiter.allFailed
    rw [hq]
    simp only [startTask, State.send, List.flatMap_cons, List.flatMap_append, List.flatMap_nil,
      List.append_nil, coe_append]
    have h : (remaining env key .head).2 = (conversion env key).2 := rfl
    rw [h]
    abel
  · show st.totalProcessed + (lim.active ++ [(key, Phase.head)]).length + rest.length
      = st.totalProcessed + lim.active.length + lim.queue.length
    rw [hq, List.length_append, List.length_singleton, List.length_cons]
    omega

theorem step_conserves (env : Env) (lim : Limiter) (st : State) :
    Conserves env lim st (lim.step env st).1 (lim.step env st).2 := by
  unfold Limiter.step
  simp only []
  cases hp : pick _ lim.active with
  | some r =>
    obtain ⟨⟨key, phase⟩, others⟩ := r
    have h := settle_conserves env lim st key phase others (pick_perm _ _ _ _ hp)
    rcases hr : resume env key phase st with ⟨st1, next⟩
    rw [hr] at h
    simp only [hr]
    cases next <;> exact h
  | none =>
    cases hq : lim.queue with
    | nil => exact Conserves.refl env lim st
    | cons key rest =>
      simp only []
      split
      · exact start_conserves env lim st key rest hq
      · exact Conserves.refl env lim st

theorem measure_perm (lim : Limiter) (key : Str) (phase : Phase) (others : List (Str × Phase))
    (hperm : lim.active.Perm ((key, phase) :: others)) :
    lim.measure = phase.rank + (others.map (fun a => a.2.rank)).sum + 5 * lim.queue.length := by
  unfold Limiter.measure
  rw [(hperm.map _).sum_eq]
  simp

theorem step_measure (env : Env) (lim : Limiter) (st : State) (hc : 1 ≤ env.cfg.CONCURRENCY) :
    (lim.step env st).1.measure ≤ lim.measure - 1 := by
  unfold Limiter.step
  simp only []
  cases hp : pick _ lim.active with
  | some r =>
    obtain ⟨⟨key, phase⟩, others⟩ := r
    have hm := measure_perm lim key phase others (pick_perm _ _ _ _ hp)
    obtain ⟨_, _, _, _, _, _, _, h8⟩ := resume_conserves env key phase st
    have hpos := Phase.rank_pos phase
    rcases hr : resume env key phase st with ⟨st1, next⟩
    rw [hr] at h8
    simp only [hr]
    cases next with
    | none =>
      simp only [Limiter.measure] at hm ⊢
      omega
    | some next =>
      have := h8 next rfl
      simp only [Limiter.measure, List.map_append, List.sum_append, List.map_cons, List.map_nil,
        List.sum_cons, List.sum_nil] at hm ⊢
      omega
  | none =>
    have hle := pick_none _ _ hp
    cases hq : lim.queue with
    | nil =>
      simp only [hq, ne_eq, not_true_eq_false, and_false, if_false, Nat.add_zero] at hle
      have h0 : lim.active.length = 0 := by
        by_contra hne
        have := Nat.mod_lt (env.schedule lim st) (Nat.pos_of_ne_zero hne)
        omega
      have hnil : lim.active = [] := List.length_eq_zero.1 h0
      simp [Limiter.measure, hnil, hq]
    | cons key rest =>
      simp only []
      by_cases hlt : (lim.active.length : Int) < env.cfg.CONCURRENCY
      · rw [if_pos hlt]
        simp only [Limiter.measure, hq, startTask, List.map_append, List.sum_append, List.map_cons,
          List.map_nil, List.sum_cons, List.sum_nil, Phase.rank, List.length_cons]
        omega
      · exfalso
        simp only [hlt, false_and, if_false, Nat.add_zero] at hle
        have h0 : lim.active.length = 0 := by
          by_contra hne
          have := Nat.mod_lt (env.schedule lim st) (Nat.pos_of_ne_zero hne)
          omega
        rw [h0] at hlt
        simp only [Nat.cast_zero, not_lt] at hlt
        omega

theorem run_conserves (env : Env) (fuel : Nat) :
    ∀ (lim : Limiter) (st : State),
      Conserves env lim st (Limiter.run env fuel lim st).1 (Limiter.run env fuel lim st).2 := by
  induction fuel with
  | zero => intro lim st; exact Conserves.refl env lim st
  | succ fuel ih =>
    intro lim st
    exact (step_conserves env lim st).trans (ih _ _)

theorem run_measure (env : Env) (hc : 1 ≤ env.cfg.CONCURRENCY) (fuel : Nat) :
    ∀ (lim : Limiter) (st : State),
      (Limiter.run env fuel lim st).1.measure ≤ lim.measure - fuel := by
  induction fuel with
  | zero => intro lim st; exact Nat.le_refl _
  | succ fuel ih =>
    intro lim st
    have h1 := step_measure env lim st hc
    have h2 := ih (lim.step env st).1 (lim.step env st).2
    simp only [Limiter.run]
    omega

theorem measure_eq_zero (lim : Limiter) (h : lim.measure = 0) :
    lim.active = [] ∧ lim.queue = [] := by
  unfold Limiter.measure at h
  constructor
  · cases ha : lim.active with
    | nil => rfl
    | cons a rest =>
      have := Phase.rank_pos a.2
      rw [ha] at h
      simp only [List.map_cons, List.sum_cons] at h
      omega
  · apply List.length_eq_zero.1
    omega

theorem flatMap_ite_eq_filter {α : Type} (p : α → Bool) (l : List α) :
    l.flatMap (fun a => if p a then [a] else []) = l.filter p := by
  induction l with
  | nil => rfl
  | cons a l ih =>
    rw [List.flatMap_cons, ih, List.filter_cons]
    cases p a <;> simp

theorem endsInFailure_eq (env : Env) (key : Str) :
    endsInFailure env key = (conversion env key).2 := by
  unfold endsInFailure
  rw [convertImage_run]
  cases hc : (conversion env key).2 <;> simp [State.record, State.initial]

theorem requestsOf_eq (env : Env) (key : Str) : requestsOf env key = (conversion env key).1 := by
  unfold requestsOf
  rw [convertImage_run]
  simp [State.record, State.initial]

/-- Once `Promise.all` has settled, every task of the page has finished:
`totalProcessed` has grown by the number of keys, the requests of the
conversions have been sent and the keys whose conversion fails have been
pushed, in some order. -/
theorem promiseAll_run (env : Env) (keys : List Str) (st : State)
    (hc : 1 ≤ env.cfg.CONCURRENCY) :
    ∃ st1, (promiseAll env keys).run st = (Except.ok (), st1) ∧
      st1.totalProcessed = st.totalProcessed + keys.length ∧
      st1.totalCount = st.totalCount ∧
      st1.failedKeysFile = st.failedKeysFile ∧
      (∃ cs, st1.calls = st.calls ++ cs ∧ cs.Perm (keys.flatMap (requestsOf env))) ∧
      (∃ failed, st1.failedKeys = st.failedKeys ++ failed ∧
        failed.Perm (keys.filter (endsInFailure env))) := by
  refine ⟨_, rfl, ?_⟩
  show _ ∧ _
  have hcons := run_conserves env (5 * keys.length) ⟨keys, []⟩ st
  have hmeas := run_measure env hc (5 * keys.length) ⟨keys, []⟩ st
  have hzero : (Limiter.run env (5 * keys.length) ⟨keys, []⟩ st).1.measure = 0 := by
    simp only [Limiter.measure, List.map_nil, List.sum_nil, Nat.zero_add, Nat.sub_self,
      Nat.le_zero] at hmeas
    exact hmeas
  obtain ⟨hact, hque⟩ := measure_eq_zero _ hzero
  obtain ⟨h1, h2, h3, h4, h5, ⟨cs, hcs⟩, ⟨fs, hfs⟩⟩ := hcons
  refine ⟨?_, h4, h5, ⟨cs, hcs, ?_⟩, ⟨fs, hfs, ?_⟩⟩
  · rw [hact, hque] at h3
    simpa using h3
  · unfold Limiter.allCalls at h1
    rw [hact, hque, hcs] at h1
    simp only [List.flatMap_nil, coe_append, Multiset.coe_nil, add_zero] at h1
    have hreq : requestsOf env = fun key => (conversion env key).1 := funext (requestsOf_eq env)
    rw [hreq]
    exact Multiset.coe_eq_coe.1 (add_left_cancel h1)
  · unfold Limiter.allFailed at h2
    rw [hact, hque, hfs] at h2
    simp only [List.flatMap_nil, coe_append, Multiset.coe_nil, add_zero] at h2
    have hf : endsInFailure env = fun key => (conversion env key).2 :=
      funext (endsInFailure_eq env)
    rw [hf, ← flatMap_ite_eq_filter]
    exact Multiset.coe_eq_coe.1 (add_left_cancel h2)

/-! ## The loop over the pages -/

theorem listedKeys_cons (page : ListObjectsV2Output) (pages : List ListObjectsV2Output) :
    listedKeys (page :: pages) = page.Contents ++ listedKeys pages := by
  simp [listedKeys]

theorem Progress.nil (env : Env) (token : Option Str) (st : State) :
    Progress env token [] st st :=
  ⟨by simp [listedKeys], by simp [listedKeys], ⟨[], by simp [listedKeys]⟩,
    ⟨[], by simp [PageByPage]⟩, rfl⟩

theorem iteration_run (env : Env) (token : Option Str) (reply : Reply ListObjectsV2Output)
    (page : ListObjectsV2Output) (st : State) (hc : 1 ≤ env.cfg.CONCURRENCY)
    (h : withTimeout reply 10000 "listObjectsV2".toList = .ok page) :
    ∃ st1, (iteration env token reply).run st
        = (Except.ok (if page.IsTruncated then page.NextContinuationToken else none), st1) ∧
      ∀ (rest : List ListObjectsV2Output) (st2 : State),
        Progress env page.NextContinuationToken rest st1 st2 →
        Progress env token (page :: rest) st st2 := by
  obtain ⟨st1, hrun, h1, h2, h3, ⟨cs, hcs, hperm⟩, ⟨fs, hfs, hfperm⟩⟩ :=
    promiseAll_run env (batchKeys env page)
      { st with calls := st.calls ++ [Call.listObjectsV2 token],
                totalCount := st.totalCount + (batchKeys env page).length } hc
  refine ⟨st1, ?_, ?_⟩
  · unfold iteration
    simp only [run_bind, request_run, await_run, h, modify_run, run_pure]
    have hrun2 : (promiseAll env (List.filter (shouldProcess env.toLowerCase env.cfg)
        page.Contents)).run
          { st with calls := st.calls ++ [Call.listObjectsV2 token],
                    totalCount := st.totalCount + (List.filter
                      (shouldProcess env.toLowerCase env.cfg) page.Contents).length }
        = (Except.ok (), st1) := hrun
    rw [hrun2]
  · intro rest st2 hp
    obtain ⟨fs2, hfs2, hfperm2⟩ := hp.failedKeys
    obtain ⟨cs2, hcs2, hpage2⟩ := hp.calls
    have hb : batchKeys env page
        = page.Contents.filter (shouldProcess env.toLowerCase env.cfg) := rfl
    refine ⟨?_, ?_, ⟨fs ++ fs2, ?_, ?_⟩, ⟨Call.listObjectsV2 token :: cs ++ cs2, ?_, ?_⟩, ?_⟩
    · rw [hp.totalCount, h2, listedKeys_cons, List.filter_append, List.length_append, ← hb]
      simp only []
      omega
    · rw [hp.totalProcessed, h1, listedKeys_cons, List.filter_append, List.length_append, ← hb]
      simp only []
      omega
    · rw [hfs2, hfs]
      simp
    · rw [listedKeys_cons, List.filter_append, List.filter_append, ← hb]
      exact hfperm.append hfperm2
    · rw [hcs2, hcs]
      simp
    · exact ⟨cs, cs2, rfl, hperm, hpage2⟩
    · rw [hp.failedKeysFile, h3]

theorem delivers_cases (replies : List (Reply ListObjectsV2Output))
    (page : ListObjectsV2Output) (pages : List ListObjectsV2Output)
    (h : Delivers replies (page :: pages)) :
    ∃ reply rest, replies = reply :: rest ∧
      withTimeout reply 10000 "listObjectsV2".toList = .ok page ∧ Delivers rest pages := by
  unfold Delivers at h
  cases replies with
  | nil => simp at h
  | cons reply rest =>
    simp only [List.map_cons, List.cons.injEq] at h
    exact ⟨reply, rest, rfl, h.1, h.2⟩

theorem doWhile_run (env : Env) (hc : 1 ≤ env.cfg.CONCURRENCY)
    (pages : List ListObjectsV2Output) :
    ∀ (replies : List (Reply ListObjectsV2Output)) (token : Option Str) (st : State),
      paginated pages = true → Delivers replies pages →
      ∃ st1, (doWhile env replies token).run st = (Except.ok (), st1) ∧
        afterIterations env pages.length replies token st = some st1 ∧
        Progress env token pages st st1 := by
  induction pages with
  | nil => intro replies token st hp; simp [paginated] at hp
  | cons page pages ih =>
    intro replies token st hp hd
    obtain ⟨reply, rest, hr, hpage, hrest⟩ := delivers_cases replies page pages hd
    subst hr
    obtain ⟨st1, hrun, hprog⟩ := iteration_run env token reply page st hc hpage
    unfold doWhile
    simp only [run_bind, hrun, run_ite, run_pure, List.length_cons, afterIterations]
    cases pages with
    | nil =>
      have ht : page.IsTruncated = false := by simpa [paginated] using hp
      refine ⟨st1, ?_, ?_, hprog [] st1 (Progress.nil env _ st1)⟩
      · simp [ht, truthy]
      · simp
    | cons next more =>
      simp only [paginated, Bool.and_eq_true] at hp
      obtain ⟨⟨ht, hn⟩, hmore⟩ := hp
      obtain ⟨st2, hrun2, hiter2, hprog2⟩ := ih rest page.NextContinuationToken st1 hmore hrest
      refine ⟨st2, ?_, ?_, hprog _ st2 hprog2⟩
      · simp only [ht, if_true, hn]
        exact hrun2
      · simp only [ht, if_true, hn, List.length_cons] at hiter2 ⊢
        simpa using hiter2

theorem afterIterations_progress (env : Env) (hc : 1 ≤ env.cfg.CONCURRENCY)
    (pages : List ListObjectsV2Output) :
    ∀ (i : Nat) (replies : List (Reply ListObjectsV2Output)) (token : Option Str) (st : State),
      paginated pages = true → Delivers replies pages → i ≤ pages.length →
      ∃ sti, afterIterations env i replies token st = some sti ∧
        Progress env token (pages.take i) st sti ∧
        ∃ stn later, afterIterations env pages.length replies token st = some stn ∧
          stn.calls = sti.calls ++ later := by
  induction pages with
  | nil => intro i replies token st hp; simp [paginated] at hp
  | cons page pages ih =>
    intro i replies token st hp hd hi
    obtain ⟨stn, _, hn, hprogn⟩ := doWhile_run env hc (page :: pages) replies token st hp hd
    obtain ⟨reply, rest, hr, hpage, hrest⟩ := delivers_cases replies page pages hd
    subst hr
    cases i with
    | zero =>
      obtain ⟨cs, hcs, _⟩ := hprogn.calls
      exact ⟨st, by simp [afterIterations], Progress.nil env token st, stn, cs, hn, hcs⟩
    | succ j =>
      obtain ⟨st1, hrun, hprog⟩ := iteration_run env token reply page st hc hpage
      simp only [afterIterations, hrun, List.take_succ_cons, List.length_cons] at hn ⊢
      by_cases hj : j = 0
      · subst hj
        refine ⟨st1, by simp, hprog [] st1 (Progress.nil env _ st1), ?_⟩
        cases pages with
        | nil =>
          refine ⟨st1, [], by simp, by simp⟩
        | cons next more =>
          simp only [paginated, Bool.and_eq_true] at hp
          obtain ⟨⟨ht, hnx⟩, hmore⟩ := hp
          obtain ⟨st2, _, hiter2, hprog2⟩ :=
            doWhile_run env hc (next :: more) rest page.NextContinuationToken st1 hmore hrest
          obtain ⟨cs, hcs, _⟩ := hprog2.calls
          refine ⟨st2, cs, ?_, hcs⟩
          simp only [ht, if_true, hnx, List.length_cons] at hiter2 ⊢
          simpa using hiter2
      · rw [if_neg hj]
        cases pages with
        | nil =>
          simp only [List.length_cons, List.length_nil] at hi
          omega
        | cons next more =>
          simp only [paginated, Bool.and_eq_true] at hp
          obtain ⟨⟨ht, hnx⟩, hmore⟩ := hp
          obtain ⟨sti, hsti, hprogi, stn2, later, hstn2, hlater⟩ :=
            ih j rest page.NextContinuationToken st1 hmore hrest (by simpa using hi)
          refine ⟨sti, ?_, hprog _ sti hprogi, stn2, later, ?_, hlater⟩
          · simp only [ht, if_true, hnx]
            exact hsti
          · simp only [ht, if_true, hnx, List.length_cons] at hstn2 ⊢
            simpa using hstn2

theorem writeFailedKeys_fields (st : State) :
    st.writeFailedKeys.totalProcessed = st.totalProcessed ∧
    st.writeFailedKeys.totalCount = st.totalCount ∧
    st.writeFailedKeys.failedKeys = st.failedKeys ∧
    st.writeFailedKeys.calls = st.calls := by
  unfold State.writeFailedKeys
  split <;> simp

/-- A run of `processAllObjects` over a listing whose fetches succeed, with a
valid `CONCURRENCY`: it returns normally, in the state of the end of the last
iteration once the failed keys are written. -/
theorem processAllObjects_run (env : Env) (pages : List ListObjectsV2Output)
    (replies : List (Reply ListObjectsV2Output)) (hc : 1 ≤ env.cfg.CONCURRENCY)
    (hp : paginated pages = true) (hd : Delivers replies pages) :
    ∃ stn, afterIterations env pages.length replies none State.initial = some stn ∧
      Progress env none pages State.initial stn ∧
      (processAllObjects env replies).run State.initial
        = (Except.ok (), stn.writeFailedKeys) := by
  obtain ⟨stn, hrun, hiter, hprog⟩ := doWhile_run env hc pages replies none State.initial hp hd
  refine ⟨stn, hiter, hprog, ?_⟩
  unfold processAllObjects pLimit
  rw [if_pos hc]
  simp only [run_bind, liftExcept_run, hrun, get_run, run_ite, set_run, run_pure]
  unfold State.writeFailedKeys
  split <;> rfl

/-- With a `CONCURRENCY` below 1 the limiter cannot be created:
`processAllObjects` throws before it sends a request. -/
theorem processAllObjects_invalid_concurrency (env : Env)
    (replies : List (Reply ListObjectsV2Output)) (hc : env.cfg.CONCURRENCY < 1) :
    ∃ err, (processAllObjects env replies).run State.initial
      = (Except.error err, State.initial) := by
  refine ⟨⟨none, "Expected concurrency to be a number from 1 and up".toList⟩, ?_⟩
  unfold processAllObjects pLimit
  rw [if_neg (by omega)]
  simp only [run_bind, liftExcept_run]

/-! ## Partial failures -/

theorem example_requests (get : Str → Reply Buffer) (schedule : Limiter → State → Nat) :
    (batchKeys (exampleEnv false (fun _ => replyNotFound) get schedule) examplePage).flatMap
        (requestsOf (exampleEnv false (fun _ => replyNotFound) get schedule))
      = (batchKeys (exampleEnv false (fun _ => replyNotFound) get firstEvent) examplePage).flatMap
        (requestsOf (exampleEnv false (fun _ => replyNotFound) get firstEvent)) := rfl

theorem example_failures (get : Str → Reply Buffer) (schedule : Limiter → State → Nat) :
    ((listedKeys [examplePage]).filter
        (shouldProcess (exampleEnv false (fun _ => replyNotFound) get schedule).toLowerCase
          (exampleEnv false (fun _ => replyNotFound) get schedule).cfg)).filter
        (endsInFailure (exampleEnv false (fun _ => replyNotFound) get schedule))
      = ((listedKeys [examplePage]).filter
        (shouldProcess asciiLowerCase ⟨[], some "img/".toList, 2, false⟩)).filter
        (endsInFailure (exampleEnv false (fun _ => replyNotFound) get firstEvent)) := rfl

/-- The end-to-end scenario, for every schedule of the event loop. -/
theorem example_run (get : Str → Reply Buffer) (schedule : Limiter → State → Nat) :
    ∃ st, (processAllObjects (exampleEnv false (fun _ => replyNotFound) get schedule)
        exampleListing).run State.initial = (Except.ok (), st) ∧
      st.totalProcessed = 2 ∧ st.totalCount = 2 ∧
      st.failedKeys.Perm (((listedKeys [examplePage]).filter
        (shouldProcess asciiLowerCase ⟨[], some "img/".toList, 2, false⟩)).filter
        (endsInFailure (exampleEnv false (fun _ => replyNotFound) get firstEvent))) ∧
      st.calls.Perm (Call.listObjectsV2 none ::
        (batchKeys (exampleEnv false (fun _ => replyNotFound) get firstEvent) examplePage).flatMap
          (requestsOf (exampleEnv false (fun _ => replyNotFound) get firstEvent))) := by
  obtain ⟨stn, _, hprog, hrun⟩ := processAllObjects_run
    (exampleEnv false (fun _ => replyNotFound) get schedule) [examplePage] exampleListing
    (show (1 : Int) ≤ 2 by decide) rfl rfl
  obtain ⟨h1, h2, h3, h4⟩ := writeFailedKeys_fields stn
  obtain ⟨fs, hfs, hfperm⟩ := hprog.failedKeys
  obtain ⟨cs, hcs, segment, later, hseg, hperm, hlater⟩ := hprog.calls
  refine ⟨_, hrun, ?_, ?_, ?_, ?_⟩
  · rw [h1, hprog.totalProcessed]
    rfl
  · rw [h2, hprog.totalCount]
    rfl
  · rw [h3, hfs, ← example_failures get schedule]
    simpa [State.initial] using hfperm
  · have hl : later = [] := hlater
    rw [h4, hcs, hseg, hl, ← example_requests get schedule]
    simpa [State.initial] using hperm

/-- Claim C5: partial failures neither abort the run nor are lost.  Over a
listing whose page fetches all succeed, with a `CONCURRENCY` of 1 or more, and
whatever the replies of the backend for each key and the order of events that
the event loop chooses, `processAllObjects` returns normally, `totalProcessed`
equals `totalCount` equals the number of listed keys accepted by
`shouldProcess`, `failedKeys` is a rearrangement of the accepted keys whose
`convertImage` ends in failure, and holds each of them once when the listed
keys are distinct.  In the bucket `img/a.png`, `img/b.webp`, `img/c.jpg` with
include-prefix `img/` and concurrency 2: on a backend that succeeds the requests
are those of the conversions of `a.png` and `c.jpg`, `totalProcessed` is 2 and
`failedKeys` is empty; when `getObject` fails on `img/a.png`, `totalProcessed`
is 2, `failedKeys` is `["img/a.png"]` and `img/c.webp` is stored. -/
theorem processAllObjects_partial_failures :
    (∀ (env : Env) (replies : List (Reply ListObjectsV2Output))
        (pages : List ListObjectsV2Output),
      1 ≤ env.cfg.CONCURRENCY → paginated pages = true → Delivers replies pages →
      ∃ st, (processAllObjects env replies).run State.initial = (Except.ok (), st) ∧
        st.totalProcessed = st.totalCount ∧
        st.totalCount
          = ((listedKeys pages).filter (shouldProcess env.toLowerCase env.cfg)).length ∧
        st.failedKeys.Perm (((listedKeys pages).filter
          (shouldProcess env.toLowerCase env.cfg)).filter (endsInFailure env)) ∧
        ((listedKeys pages).Nodup → st.failedKeys.Nodup)) ∧
    (∀ schedule : Limiter → State → Nat,
      ∃ st, (processAllObjects (exampleEnv false (fun _ => replyNotFound) getAll schedule)
          exampleListing).run State.initial = (Except.ok (), st) ∧
        st.totalProcessed = 2 ∧ st.totalCount = 2 ∧ st.failedKeys = [] ∧
        st.calls.Perm
          [Call.listObjectsV2 none,
           Call.headObject "img/a.webp".toList, Call.getObject "img/a.png".toList,
           Call.putObject "img/a.webp".toList [0x52, 0x89, 0x50],
           Call.headObject "img/c.webp".toList, Call.getObject "img/c.jpg".toList,
           Call.putObject "img/c.webp".toList [0x52, 0x89, 0x50]]) ∧
    (∀ schedule : Limiter → State → Nat,
      ∃ st, (processAllObjects (exampleEnv false (fun _ => replyNotFound) getAllButA schedule)
          exampleListing).run State.initial = (Except.ok (), st) ∧
        st.totalProcessed = 2 ∧ st.totalCount = 2 ∧ st.failedKeys = ["img/a.png".toList] ∧
        st.calls.Perm
          [Call.listObjectsV2 none,
           Call.headObject "img/a.webp".toList, Call.getObject "img/a.png".toList,
           Call.headObject "img/c.webp".toList, Call.getObject "img/c.jpg".toList,
           Call.putObject "img/c.webp".toList [0x52, 0x89, 0x50]]) := by
  refine ⟨?_, ?_, ?_⟩
  · intro env replies pages hc hp hd
    obtain ⟨stn, _, hprog, hrun⟩ := processAllObjects_run env pages replies hc hp hd
    obtain ⟨h1, h2, h3, _⟩ := writeFailedKeys_fields stn
    obtain ⟨fs, hfs, hfperm⟩ := hprog.failedKeys
    have hperm : stn.writeFailedKeys.failedKeys.Perm (((listedKeys pages).filter
        (shouldProcess env.toLowerCase env.cfg)).filter (endsInFailure env)) := by
      rw [h3, hfs]
      simpa [State.initial] using hfperm
    refine ⟨_, hrun, ?_, ?_, hperm, ?_⟩
    · rw [h1, h2, hprog.totalProcessed, hprog.totalCount]
      rfl
    · rw [h2, hprog.totalCount]
      simp [State.initial]
    · intro hn
      exact hperm.nodup_iff.2 ((hn.filter _).filter _)
  · intro schedule
    obtain ⟨st, hrun, h1, h2, h3, h4⟩ := example_run getAll schedule
    exact ⟨st, hrun, h1, h2, List.Perm.eq_nil h3, h4⟩
  · intro schedule
    obtain ⟨st, hrun, h1, h2, h3, h4⟩ := example_run getAllButA schedule
    exact ⟨st, hrun, h1, h2, List.perm_singleton.1 h3, h4⟩

/-- Claim C5, on the bucket of the scenario: with `getObject` failing on
`img/a.png` and the event loop always choosing the last event that can happen,
and in the two scenarios with the event loop always choosing the first. -/
theorem processAllObjects_partial_failures_witness :
    (∃ st, (processAllObjects
          (exampleEnv false (fun _ => replyNotFound) getAllButA lastEvent)
          exampleListing).run State.initial = (Except.ok (), st) ∧
      st.totalProcessed = st.totalCount ∧ st.totalCount = 2 ∧
      st.failedKeys.Perm ["img/a.png".toList] ∧ st.failedKeys.Nodup) ∧
    (∃ st, (processAllObjects (exampleEnv false (fun _ => replyNotFound) getAll firstEvent)
          exampleListing).run State.initial = (Except.ok (), st) ∧
      st.totalProcessed = 2 ∧ st.failedKeys = []) ∧
    (∃ st, (processAllObjects (exampleEnv false (fun _ => replyNotFound) getAllButA firstEvent)
          exampleListing).run State.initial = (Except.ok (), st) ∧
      st.totalProcessed = 2 ∧ st.failedKeys = ["img/a.png".toList] ∧
      Call.putObject "img/c.webp".toList [0x52, 0x89, 0x50] ∈ st.calls) := by
  obtain ⟨st, hrun, h1, h2, h3, h4⟩ := processAllObjects_partial_failures.1
    (exampleEnv false (fun _ => replyNotFound) getAllButA lastEvent)
    exampleListing [examplePage] (by decide) rfl rfl
  obtain ⟨st2, hrun2, hp2, _, hf2, _⟩ := processAllObjects_partial_failures.2.1 firstEvent
  obtain ⟨st3, hrun3, hp3, _, hf3, hc3⟩ := processAllObjects_partial_failures.2.2 firstEvent
  exact ⟨⟨st, hrun, h1, h2, h3, h4 (by decide)⟩, ⟨st2, hrun2, hp2, hf2⟩,
    ⟨st3, hrun3, hp3, hf3, hc3.mem_iff.2 (by decide)⟩⟩

/-! ## Pagination -/

theorem listTokens_append (cs ds : List Call) :
    listTokens (cs ++ ds) = listTokens cs ++ listTokens ds := by
  induction cs with
  | nil => rfl
  | cons c cs ih => cases c <;> simp [listTokens, ih]

theorem listTokens_list (token : Option Str) (cs : List Call) :
    listTokens (Call.listObjectsV2 token :: cs) = token :: listTokens cs := rfl

theorem listTokens_conversion (env : Env) (key : Str) :
    listTokens (conversion env key).1 = [] := by
  unfold conversion
  repeat' split
  all_goals rfl

theorem listTokens_flatMap (env : Env) (keys : List Str) :
    listTokens (keys.flatMap (requestsOf env)) = [] := by
  induction keys with
  | nil => rfl
  | cons key rest ih =>
    rw [List.flatMap_cons, listTokens_append, requestsOf_eq, listTokens_conversion, ih]
    rfl

theorem listTokens_perm (cs ds : List Call) (h : cs.Perm ds) (hd : listTokens ds = []) :
    listTokens cs = [] := by
  induction h with
  | nil => rfl
  | cons c _ ih =>
    cases c with
    | listObjectsV2 token => simp [listTokens] at hd
    | headObject key => exact ih hd
    | getObject key => exact ih hd
    | putObject key body => exact ih hd
  | swap c d l =>
    cases c <;> cases d <;> simp_all [listTokens]
  | trans _ _ ih1 ih2 => exact ih1 (ih2 hd)

theorem listTokens_pageByPage (env : Env) (pages : List ListObjectsV2Output) :
    ∀ (token : Option Str) (cs : List Call), pages ≠ [] → PageByPage env token pages cs →
      listTokens cs = token :: pages.dropLast.map (fun page => page.NextContinuationToken) := by
  induction pages with
  | nil => intro token cs h; exact absurd rfl h
  | cons page pages ih =>
    intro token cs _ hpage
    obtain ⟨segment, later, hcs, hperm, hlater⟩ := hpage
    have hseg : listTokens segment = [] :=
      listTokens_perm _ _ hperm (listTokens_flatMap env _)
    rw [hcs, List.cons_append, listTokens_list, listTokens_append, hseg, List.nil_append]
    cases pages with
    | nil =>
      have hl : later = [] := hlater
      rw [hl]
      rfl
    | cons next more =>
      rw [ih _ later (by simp) hlater]
      rfl

theorem paginated_ne_nil (pages : List ListObjectsV2Output) (hp : paginated pages = true) :
    pages ≠ [] := by
  intro h
  subst h
  simp [paginated] at hp

theorem accepted_take_le (env : Env) (pages : List ListObjectsV2Output) (i : Nat) :
    ((listedKeys (pages.take i)).filter (shouldProcess env.toLowerCase env.cfg)).length
      + ((listedKeys (pages.drop i)).filter (shouldProcess env.toLowerCase env.cfg)).length
      = ((listedKeys pages).filter (shouldProcess env.toLowerCase env.cfg)).length := by
  have h : listedKeys pages = listedKeys (pages.take i) ++ listedKeys (pages.drop i) := by
    conv_lhs => rw [← List.take_append_drop i pages]
    unfold listedKeys
    rw [List.flatMap_append]
  rw [h, List.filter_append, List.length_append]

theorem accepted_drop_pos (env : Env) (pages : List ListObjectsV2Output) (i : Nat)
    (last : ListObjectsV2Output) (hi : i < pages.length) (hl : pages.getLast? = some last)
    (hb : batchKeys env last ≠ []) :
    0 < ((listedKeys (pages.drop i)).filter (shouldProcess env.toLowerCase env.cfg)).length := by
  have hmem : last ∈ pages.drop i := by
    apply List.mem_of_getLast?_eq_some
    rw [List.getLast?_drop, if_neg (by omega), hl]
  obtain ⟨key, hkey⟩ := List.exists_mem_of_ne_nil _ hb
  apply List.length_pos_of_mem (a := key)
  unfold batchKeys at hkey
  rw [List.mem_filter] at hkey ⊢
  refine ⟨?_, hkey.2⟩
  unfold listedKeys
  rw [List.mem_flatMap]
  exact ⟨last, hmem, hkey.1⟩

/-- Claim C6 as stated fails in its last part: over the two pages of
`twoPages` the only key of the last page is a WebP image, so `totalCount` is 1,
its final value, at the end of the first iteration, when one `listObjectsV2`
request has been sent and the last page has not been fetched. -/
theorem totalCount_final_before_last_page :
    paginated twoPages = true ∧
    Delivers (deliver twoPages) twoPages ∧
    (afterIterations (exampleEnv false (fun _ => replyNotFound) getAll firstEvent) 1
        (deliver twoPages) none State.initial).map
      (fun st => (st.totalCount, listTokens st.calls)) = some (1, [none]) ∧
    ((processAllObjects (exampleEnv false (fun _ => replyNotFound) getAll firstEvent)
        (deliver twoPages)).run State.initial).1 = Except.ok () ∧
    ((processAllObjects (exampleEnv false (fun _ => replyNotFound) getAll firstEvent)
        (deliver twoPages)).run State.initial).2.totalCount = 1 ∧
    listTokens ((processAllObjects (exampleEnv false (fun _ => replyNotFound) getAll firstEvent)
        (deliver twoPages)).run State.initial).2.calls = [none, some "token-1".toList] :=
  ⟨by decide, rfl, by decide, rfl, by decide, by decide⟩

/-- Claim C6, amended: with a `CONCURRENCY` of 1 or more, over a listing of
`n >= 1` pages in which every page but the last reports truncation with a
continuation token and the last reports none, and whatever the order of events
that the event loop chooses, `processAllObjects` returns normally after
exactly `n` `listObjectsV2` requests, the first without a token and each next
one with the token of the page before; the requests go page by page
(`PageByPage`): the `listObjectsV2` request of a page, then the requests of the
tasks of that page in some order, then the next page.  At the end of the `i`-th
iteration the requests sent are those of the first `i` pages and they are the
first requests of the run, every task admitted so far has completed, and
`totalCount` is the number of accepted keys of the first `i` pages: it never
exceeds its final value, and it is below it before the last page is fetched
whenever the last page holds an accepted key.  The run ends in the state of
the end of the `n`-th iteration, once the failed keys are written.  With 3
pages of 50 accepted keys there are 3 requests and `totalCount` ends at 150. -/
theorem processAllObjects_pagination (env : Env) (replies : List (Reply ListObjectsV2Output))
    (pages : List ListObjectsV2Output)
    (hc : 1 ≤ env.cfg.CONCURRENCY)
    (hp : paginated pages = true) (hd : Delivers replies pages) :
    ∃ st, (processAllObjects env replies).run State.initial = (Except.ok (), st) ∧
      listTokens st.calls
        = none :: pages.dropLast.map (fun page => page.NextContinuationToken) ∧
      (listTokens st.calls).length = pages.length ∧
      PageByPage env none pages st.calls ∧
      st.totalCount
        = ((listedKeys pages).filter (shouldProcess env.toLowerCase env.cfg)).length ∧
      (∀ i, i ≤ pages.length →
        ∃ sti, afterIterations env i replies none State.initial = some sti ∧
          PageByPage env none (pages.take i) sti.calls ∧
          (∃ later, st.calls = sti.calls ++ later) ∧
          sti.totalProcessed = sti.totalCount ∧
          sti.totalCount = ((listedKeys (pages.take i)).filter
            (shouldProcess env.toLowerCase env.cfg)).length ∧
          sti.totalCount ≤ st.totalCount ∧
          (i < pages.length → ∀ last, pages.getLast? = some last →
            batchKeys env last ≠ [] → sti.totalCount < st.totalCount)) ∧
      (∃ stn, afterIterations env pages.length replies none State.initial = some stn ∧
        st = stn.writeFailedKeys) ∧
      (pages.length = 3 → (∀ page ∈ pages, (batchKeys env page).length = 50) →
        (listTokens st.calls).length = 3 ∧ st.totalCount = 150) := by
  obtain ⟨stn, hiter, hprog, hrun⟩ := processAllObjects_run env pages replies hc hp hd
  obtain ⟨_, f2, _, f4⟩ := writeFailedKeys_fields stn
  obtain ⟨cs, hcs, hpage⟩ := hprog.calls
  have hcalls : stn.writeFailedKeys.calls = cs := by
    rw [f4, hcs]
    simp [State.initial]
  have htotal : stn.writeFailedKeys.totalCount
      = ((listedKeys pages).filter (shouldProcess env.toLowerCase env.cfg)).length := by
    rw [f2, hprog.totalCount]
    simp [State.initial]
  have htok : listTokens stn.writeFailedKeys.calls
      = none :: pages.dropLast.map (fun page => page.NextContinuationToken) := by
    rw [hcalls]
    exact listTokens_pageByPage env pages none cs (paginated_ne_nil pages hp) hpage
  have hlen : (listTokens stn.writeFailedKeys.calls).length = pages.length := by
    rw [htok, List.length_cons, List.length_map, List.length_dropLast]
    have := List.length_pos.2 (paginated_ne_nil pages hp)
    omega
  refine ⟨_, hrun, htok, hlen, by rw [hcalls]; exact hpage, htotal, ?_, ⟨stn, hiter, rfl⟩, ?_⟩
  · intro i hi
    obtain ⟨sti, hsti, hprogi, stn2, later, hstn2, hlater⟩ :=
      afterIterations_progress env hc pages i replies none State.initial hp hd hi
    have hsame : stn2 = stn := Option.some.inj (hstn2.symm.trans hiter)
    subst hsame
    obtain ⟨csi, hcsi, hpagei⟩ := hprogi.calls
    have hcount : sti.totalCount = ((listedKeys (pages.take i)).filter
        (shouldProcess env.toLowerCase env.cfg)).length := by
      rw [hprogi.totalCount]
      simp [State.initial]
    refine ⟨sti, hsti, ?_, ⟨later, by rw [f4]; exact hlater⟩, ?_, hcount, ?_, ?_⟩
    · have : sti.calls = csi := by
        rw [hcsi]
        simp [State.initial]
      rw [this]
      exact hpagei
    · rw [hprogi.totalProcessed, hprogi.totalCount]
      rfl
    · rw [hcount, htotal, ← accepted_take_le env pages i]
      omega
    · intro hlt last hlast hb
      have hpos := accepted_drop_pos env pages i last hlt hlast hb
      rw [hcount, htotal, ← accepted_take_le env pages i]
      omega
  · intro h3 h50
    refine ⟨hlen.trans h3, ?_⟩
    obtain ⟨a, b, c, habc⟩ := List.length_eq_three.1 h3
    subst habc
    have ha := h50 a (by simp)
    have hb := h50 b (by simp)
    have hc3 := h50 c (by simp)
    unfold batchKeys at ha hb hc3
    rw [htotal]
    simp [listedKeys, List.filter_append, ha, hb, hc3]

/-- Claim C6, amended, at three pages of 50 keys `img/0.png` to `img/149.png`:
3 requests, `totalCount` is 100 after two pages and 150 at the end. -/
theorem processAllObjects_pagination_witness :
    ∃ st sti, (processAllObjects (exampleEnv false (fun _ => replyNotFound) getAll firstEvent)
        (deliver threePages)).run State.initial = (Except.ok (), st) ∧
      (listTokens st.calls).length = 3 ∧ st.totalCount = 150 ∧
      afterIterations (exampleEnv false (fun _ => replyNotFound) getAll firstEvent) 2
        (deliver threePages) none State.initial = some sti ∧
      sti.totalCount < st.totalCount := by
  obtain ⟨st, hrun, _, _, _, _, hiter, _, hthree⟩ :=
    processAllObjects_pagination (exampleEnv false (fun _ => replyNotFound) getAll firstEvent)
      (deliver threePages) threePages (by decide) (by decide) rfl
  obtain ⟨sti, hsti, _, _, _, _, _, hlt⟩ := hiter 2 (by decide)
  obtain ⟨h3, h150⟩ := hthree rfl (by decide)
  exact ⟨st, sti, hrun, h3, h150, hsti,
    hlt (by decide) (pageOfFifty 100 false none) rfl (by decide)⟩


/-! ## Prefix normalisation, continued -/

theorem shouldProcess_of_excluded (toLowerCase : Str → Str) (cfg : Config) (key : Str)
    (h : cfg.EXCLUDE_PREFIXES.any (fun pre => startsWith key pre) = true) :
    shouldProcess toLowerCase cfg key = false := by
  unfold shouldProcess
  by_cases h1 : endsWith (toLowerCase key) ".webp".toList = true
  · rw [if_pos h1]
  · rw [if_neg h1]
    split
    · rfl
    · rfl

theorem endsWith_slash_of_double (s : Str) (h : endsWith s ['/', '/'] = true) :
    endsWith s ['/'] = true := by
  rw [endsWith_iff] at h ⊢
  obtain ⟨a, ha⟩ := h
  exact ⟨a ++ ['/'], by rw [ha]; simp⟩

theorem endsWith_slash_of_append_double (s : Str) (h : endsWith (s ++ ['/']) ['/', '/'] = true) :
    endsWith s ['/'] = true := by
  rw [endsWith_iff] at h ⊢
  obtain ⟨a, ha⟩ := h
  refine ⟨a, ?_⟩
  have h2 : s ++ ['/'] = (a ++ ['/']) ++ ['/'] := by rw [ha]; simp
  exact List.append_cancel_right h2

theorem normalizePrefix_endsWith_slash (p : Str) :
    endsWith (normalizePrefix p) ['/'] = true := by
  rw [normalizePrefix_eq]
  by_cases h : endsWith (trim p) ['/'] = true
  · rw [if_pos h]
    exact h
  · rw [if_neg h, endsWith_iff]
    exact ⟨trim p, rfl⟩

/-- Claim C9, amended: the normalisation of a prefix yields a string that ends
with `/`: the trimmed prefix itself if that ends with `/`, and the trimmed
prefix followed by `/` otherwise; the result ends with `//` only if the
trimmed prefix already does.  Every configured prefix, exclude or include,
ends with `/`.  With the exclude-prefix `img` the key `img/a.png` is excluded
and the key `images/a.png` is not. -/
theorem normalizePrefix_trailing_slash (p : Str) :
    endsWith (normalizePrefix p) "/".toList = true ∧
    (endsWith (trim p) "/".toList = true → normalizePrefix p = trim p) ∧
    (endsWith (trim p) "/".toList = false → normalizePrefix p = trim p ++ "/".toList) ∧
    (endsWith (normalizePrefix p) "//".toList = true ↔ endsWith (trim p) "//".toList = true) ∧
    (∀ args : Args, (∀ q ∈ excludePrefixes args, endsWith q "/".toList = true) ∧
      (∀ q, includePrefix args = some q → endsWith q "/".toList = true)) ∧
    excludePrefixes ⟨some "img".toList, none, none, false⟩ = ["img/".toList] ∧
    (∀ toLowerCase : Str → Str,
      shouldProcess toLowerCase (Config.ofArgs ⟨some "img".toList, none, none, false⟩)
        "img/a.png".toList = false) ∧
    (Config.ofArgs ⟨some "img".toList, none, none, false⟩).EXCLUDE_PREFIXES.any
      (fun pre => startsWith "images/a.png".toList pre) = false ∧
    shouldProcess asciiLowerCase (Config.ofArgs ⟨some "img".toList, none, none, false⟩)
      "images/a.png".toList = true := by
  refine ⟨normalizePrefix_endsWith_slash p, ?_, ?_, ?_, ?_, by decide, ?_, by decide, by decide⟩
  · intro h
    rw [normalizePrefix_eq]
    exact if_pos h
  · intro h
    rw [normalizePrefix_eq]
    have h2 : endsWith (trim p) ['/'] = false := h
    exact if_neg (by rw [h2]; decide)
  · rw [normalizePrefix_eq]
    by_cases h : endsWith (trim p) ['/'] = true
    · rw [if_pos h]
    · rw [if_neg h]
      constructor
      · intro h2
        exact absurd (endsWith_slash_of_append_double _ h2) h
      · intro h2
        exact absurd (endsWith_slash_of_double _ h2) h
  · intro args
    constructor
    · intro q hq
      unfold excludePrefixes at hq
      split at hq
      · split at hq
        · obtain ⟨r, _, hr⟩ := List.mem_map.1 hq
          rw [← hr]
          exact normalizePrefix_endsWith_slash r
        · simp at hq
      · simp at hq
    · intro q hq
      unfold includePrefix at hq
      split at hq
      · obtain ⟨r, _, hr⟩ := Option.map_eq_some'.1 hq
        rw [← hr]
        exact normalizePrefix_endsWith_slash r
      · simp at hq
  · intro toLowerCase
    exact shouldProcess_of_excluded _ _ _ (by decide)

/-- Claim C9, amended, at the prefixes ` img ` and `img/` and at the command
line `--exclude "img, tmp/x" --include photos`. -/
theorem normalizePrefix_trailing_slash_witness :
    normalizePrefix " img ".toList = "img".toList ++ "/".toList ∧
    normalizePrefix "img/".toList = "img/".toList ∧
    endsWith "tmp/x/".toList "/".toList = true ∧
    endsWith "photos/".toList "/".toList = true :=
  ⟨(normalizePrefix_trailing_slash " img ".toList).2.2.1 (by decide),
   (normalizePrefix_trailing_slash "img/".toList).2.1 (by decide),
   ((normalizePrefix_trailing_slash []).2.2.2.2.1
      ⟨some "img, tmp/x".toList, some "photos".toList, none, false⟩).1
      "tmp/x/".toList (by decide),
   ((normalizePrefix_trailing_slash []).2.2.2.2.1
      ⟨some "img, tmp/x".toList, some "photos".toList, none, false⟩).2
      "photos/".toList (by decide)⟩

end ConvertExistingBatch
